import Mathlib

/-!
# Verification of the snap Trust & Distribution Analysis engine

Shallow embedding of `packages/snap/src/distribution.ts` and of the
trusted-circle service (`getTrustedContactsWithPositions`,
`getNetworkFamiliarity`, `enrichContactLabels`).

Modelling conventions:
* JavaScript numbers are modelled over a `LinearOrderedField` (instantiated
  at `ℚ` for the exact computational paths and at `ℝ` where the source uses
  `Math.sqrt` / `Math.pow`); NaN is not representable, matching the source's
  own `isNaN` filtering.
* `BigInt` on decimal share strings is modelled by `strToNat`.
* JS `Array.prototype.sort` (stable in all modern engines) is modelled by the
  stable `List.insertionSort`.
* Fallible asynchronous queries are modelled by an `Except` parameter holding
  the query's outcome; `try`/`catch` becomes a `match` on that parameter.
* JS `Map` (insertion-ordered, later `set` overwrites) is modelled by an
  association list.
-/

-- =============================================================================
-- Shared string helpers (trusted-circle module)
-- =============================================================================

/-- Model of JS `String.prototype.toLowerCase` (ASCII addresses/labels). -/
def lowerStr (s : String) : String := s.map Char.toLower

/-- Model of JS `BigInt(s)` on a string of decimal digits (shares are
non-negative fixed-point integers serialized as decimal strings). -/
def strToNat (s : String) : ℕ :=
  s.foldl (fun n c => n * 10 + (c.toNat - 48)) 0

/-- Source `formatAddress` from `trusted-circle/service`: first 6 + last 4 chars;
`!address` (empty string) yields `"Unknown"`, short strings are returned
unchanged. -/
def formatAddress (address : String) : String :=
  if address = "" then "Unknown"
  else if address.length < 12 then address
  else address.take 6 ++ "..." ++ address.drop (address.length - 4)

/-- One hex digit, either case (the class `[a-fA-F0-9]`). -/
def isHexDigitChar (c : Char) : Bool :=
  ('0' ≤ c ∧ c ≤ '9') ∨ ('a' ≤ c ∧ c ≤ 'f') ∨ ('A' ≤ c ∧ c ≤ 'F')

/-- The regex `/^0x[a-fA-F0-9]{40}$/i` (case-insensitive `0x` prefix). -/
def isEvmAddressCI (s : String) : Bool :=
  s.length = 42 ∧ lowerStr (s.take 2) = "0x" ∧ (s.drop 2).all isHexDigitChar

-- =============================================================================
-- distribution.ts : types
-- =============================================================================

/-- Source `DistributionStatus` (4-tier system). -/
inductive DistributionStatus
  | wellDistributed
  | moderate
  | concentrated
  | whaleDominated
deriving DecidableEq, Repr

/-- Source `SnapColor` MetaMask Snap color tokens. -/
inductive SnapColor
  | default
  | alternative
  | muted
  | error
  | success
  | warning
deriving DecidableEq, Repr

/-- Source `DISTRIBUTION_SNAP_COLORS` record, as a function of the status key. -/
def DISTRIBUTION_SNAP_COLORS : DistributionStatus → SnapColor
  | .wellDistributed => .success
  | .moderate => .warning
  | .concentrated => .warning
  | .whaleDominated => .error

/-- Source `DISTRIBUTION_HEX_COLORS` record. -/
def DISTRIBUTION_HEX_COLORS : DistributionStatus → String
  | .wellDistributed => "#22c55e"
  | .moderate => "#eab308"
  | .concentrated => "#f97316"
  | .whaleDominated => "#ef4444"

/-- Source `DISTRIBUTION_LABELS` record. -/
def DISTRIBUTION_LABELS : DistributionStatus → String
  | .wellDistributed => "Well Distributed"
  | .moderate => "Moderate"
  | .concentrated => "Concentrated"
  | .whaleDominated => "Whale Dominated"

/-- Source `DISTRIBUTION_SHORT_LABELS` record. -/
def DISTRIBUTION_SHORT_LABELS : DistributionStatus → String
  | .wellDistributed => "🟢 Distributed"
  | .moderate => "🟡 Moderate"
  | .concentrated => "⚠️ Concentrated"
  | .whaleDominated => "⛔️ Whale"

/-- Source `DistributionAnalysis`, polymorphic in the numeric carrier `α`. -/
structure DistributionAnalysis (α : Type) where
  gini : α
  nakamoto : ℕ
  top1Percent : α
  top3Percent : α
  stakerCount : ℕ
  totalShares : α
  status : DistributionStatus
  snapColor : SnapColor
  hexColor : String
  label : String
  shortLabel : String
deriving DecidableEq, Repr

/-- Source `PositionWithShares` (shares already numeric). -/
structure PositionWithShares (α : Type) where
  shares : α
  account_id : Option String := none
deriving DecidableEq, Repr

/-- The `{ shares: number }` sub-record of `PositionAggregate`. -/
structure AggShares (α : Type) where
  shares : α
deriving DecidableEq, Repr

/-- Source `PositionAggregate`. `sum`/`avg` are `Option`s because the code guards
them with optional chaining (`sum?.shares || 0`). -/
structure PositionAggregate (α : Type) where
  count : ℕ
  sum : Option (AggShares α) := none
  avg : Option (AggShares α) := none
deriving DecidableEq, Repr

-- =============================================================================
-- distribution.ts : statistics kernel
-- =============================================================================

/-- The double loop of `calculateGini`: Σᵢ Σⱼ |xᵢ - xⱼ|. -/
def sumDifferences {α : Type} [LinearOrderedField α] (l : List α) : α :=
  (l.map (fun vI => (l.map (fun vJ => |vI - vJ|)).sum)).sum

/-- Source `calculateGini`: filters non-positive values, returns 0 for fewer than
2 positive values or zero mean, otherwise the relative mean absolute
difference clamped to `[0, 1]`. -/
def calculateGini {α : Type} [LinearOrderedField α] (values : List α) : α :=
  let nonZeroValues := values.filter (fun v => 0 < v)
  let n := nonZeroValues.length
  if n = 0 then 0
  else if n = 1 then 0
  else
    let mean := nonZeroValues.sum / (n : α)
    if mean = 0 then 0
    else
      let gini := sumDifferences nonZeroValues / (2 * (n : α) * (n : α) * mean)
      max 0 (min 1 gini)

/-- Descending sort `[...values].sort((a, b) => b - a)`, modelled by the
stable insertion sort under `≥`. -/
def sortDesc {α : Type} [LinearOrderedField α] (l : List α) : List α :=
  l.insertionSort (fun a b => b ≤ a)

/-- The accumulation loop of `calculateNakamoto`: 1-based count of entries
needed for the running sum to reach the threshold; the full length if it
never does. -/
def nakamotoLoop {α : Type} [LinearOrderedField α] (threshold : α) :
    List α → α → ℕ
  | [], _ => 0
  | v :: rest, cumulative =>
      if threshold ≤ cumulative + v then 1
      else 1 + nakamotoLoop threshold rest (cumulative + v)

/-- Source `calculateNakamoto`: minimum number of top stakers controlling 51%. -/
def calculateNakamoto {α : Type} [LinearOrderedField α] (values : List α) : ℕ :=
  let nonZeroValues := values.filter (fun v => 0 < v)
  if nonZeroValues = [] then 0
  else
    let total := nonZeroValues.sum
    let threshold := total * 0.51
    nakamotoLoop threshold (sortDesc nonZeroValues) 0

/-- Source `calculateTopNPercent`: percentage of the total held by the top `n`
entries (descending). -/
def calculateTopNPercent {α : Type} [LinearOrderedField α]
    (values : List α) (n : ℕ) : α :=
  let nonZeroValues := values.filter (fun v => 0 < v)
  if nonZeroValues = [] then 0
  else
    let total := nonZeroValues.sum
    if total = 0 then 0
    else ((sortDesc nonZeroValues).take n).sum / total * 100

-- =============================================================================
-- distribution.ts : status classifier
-- =============================================================================

/-- The `gini` field of `DISTRIBUTION_THRESHOLDS`. -/
structure GiniThresholds (α : Type) where
  wellDistributed : α
  moderate : α
  concentrated : α

/-- The `top1` field of `DISTRIBUTION_THRESHOLDS`. -/
structure Top1Thresholds (α : Type) where
  wellDistributed : α
  moderate : α
  concentrated : α

/-- Source `DISTRIBUTION_THRESHOLDS` record shape. -/
structure DistributionThresholds (α : Type) where
  gini : GiniThresholds α
  top1 : Top1Thresholds α
  minStakersForAnalysis : ℕ

/-- Source `DISTRIBUTION_THRESHOLDS` constant. -/
def DISTRIBUTION_THRESHOLDS {α : Type} [LinearOrderedField α] :
    DistributionThresholds α :=
  { gini := { wellDistributed := 0.35, moderate := 0.55, concentrated := 0.75 }
    top1 := { wellDistributed := 30, moderate := 50, concentrated := 80 }
    minStakersForAnalysis := 3 }

/-- Source `determineStatus`: whale check first, then zero/low staker counts, then
gini bands. -/
def determineStatus {α : Type} [LinearOrderedField α]
    (gini top1Percent : α) (stakerCount : ℕ) : DistributionStatus :=
  let t := DISTRIBUTION_THRESHOLDS (α := α)
  if t.top1.concentrated ≤ top1Percent then .whaleDominated
  else if stakerCount = 0 then .wellDistributed
  else if stakerCount < t.minStakersForAnalysis then .concentrated
  else if gini ≤ t.gini.wellDistributed then .wellDistributed
  else if gini ≤ t.gini.moderate then .moderate
  else if gini ≤ t.gini.concentrated then .concentrated
  else .whaleDominated

-- =============================================================================
-- distribution.ts : main analysis functions
-- =============================================================================

/-- Source `analyzeShareDistribution`. -/
def analyzeShareDistribution {α : Type} [LinearOrderedField α]
    (shares : List α) : DistributionAnalysis α :=
  let nonZeroShares := shares.filter (fun v => 0 < v)
  let stakerCount := nonZeroShares.length
  let totalShares := nonZeroShares.sum
  if stakerCount = 0 then
    { gini := 0, nakamoto := 0, top1Percent := 0, top3Percent := 0
      stakerCount := 0, totalShares := 0
      status := .wellDistributed
      snapColor := DISTRIBUTION_SNAP_COLORS .wellDistributed
      hexColor := DISTRIBUTION_HEX_COLORS .wellDistributed
      label := "No Stakes", shortLabel := "None" }
  else
    let gini := calculateGini nonZeroShares
    let nakamoto := calculateNakamoto nonZeroShares
    let top1Percent := calculateTopNPercent nonZeroShares 1
    let top3Percent := calculateTopNPercent nonZeroShares 3
    let status := determineStatus gini top1Percent stakerCount
    { gini := gini, nakamoto := nakamoto, top1Percent := top1Percent
      top3Percent := top3Percent, stakerCount := stakerCount
      totalShares := totalShares, status := status
      snapColor := DISTRIBUTION_SNAP_COLORS status
      hexColor := DISTRIBUTION_HEX_COLORS status
      label := DISTRIBUTION_LABELS status
      shortLabel := DISTRIBUTION_SHORT_LABELS status }

/-- Source `analyzePositionDistribution` (the `isNaN` filter has no counterpart in
an exact field). -/
def analyzePositionDistribution {α : Type} [LinearOrderedField α]
    (positions : List (PositionWithShares α)) : DistributionAnalysis α :=
  analyzeShareDistribution ((positions.map (fun p => p.shares)).filter (fun s => 0 < s))

/-- The inlined top-1 estimate of `estimateDistributionFromAggregate`
(`Math.sqrt` / `Math.pow` modelled by their exact real counterparts). -/
noncomputable def estimatedTop1PercentOf (count : ℕ) : ℝ :=
  if count = 1 then 100
  else if count = 2 then 70
  else if count ≤ 5 then 100 / Real.sqrt count
  else max 20 (100 / (count : ℝ) ^ (0.7 : ℝ))

/-- The inlined gini estimate of `estimateDistributionFromAggregate`. -/
def estimatedGiniOf (count : ℕ) : ℝ :=
  if count = 1 then 0
  else if count = 2 then 0.5
  else if count ≤ 5 then 0.6
  else if count ≤ 10 then 0.5
  else 0.4

/-- Source `totalShares = sum?.shares || 0`. -/
def aggTotalShares (a : PositionAggregate ℝ) : ℝ :=
  match a.sum with
  | some s => s.shares
  | none => 0

/-- Source `estimateDistributionFromAggregate`. -/
noncomputable def estimateDistributionFromAggregate
    (aggregate : Option (PositionAggregate ℝ)) : DistributionAnalysis ℝ :=
  match aggregate with
  | none => analyzeShareDistribution []
  | some aggregate =>
    if aggregate.count = 0 then analyzeShareDistribution []
    else
      let count := aggregate.count
      let totalShares := aggTotalShares aggregate
      if count = 0 ∨ totalShares = 0 then analyzeShareDistribution []
      else
        let estimatedTop1Percent := estimatedTop1PercentOf count
        let estimatedGini := estimatedGiniOf count
        let status := determineStatus estimatedGini estimatedTop1Percent count
        { gini := estimatedGini
          nakamoto := if count = 1 then 1 else (((count : ℚ) * 0.3).ceil).toNat
          top1Percent := estimatedTop1Percent
          top3Percent := min 100 (estimatedTop1Percent * 1.3)
          stakerCount := count, totalShares := totalShares, status := status
          snapColor := DISTRIBUTION_SNAP_COLORS status
          hexColor := DISTRIBUTION_HEX_COLORS status
          label := DISTRIBUTION_LABELS status
          shortLabel := DISTRIBUTION_SHORT_LABELS status }

-- =============================================================================
-- distribution.ts : combined trust + distribution analysis
-- =============================================================================

/-- Source `TrustLevel`. -/
inductive TrustLevel
  | trusted
  | mixed
  | untrusted
  | noStakes
deriving DecidableEq, Repr

/-- Source `determineTrustLevel`, returning the `{ level, ratio }` pair. -/
def determineTrustLevel {α : Type} [LinearOrderedField α]
    (supportMarketCap opposeMarketCap : α) : TrustLevel × α :=
  let total := supportMarketCap + opposeMarketCap
  if total = 0 then (.noStakes, 50)
  else
    let trustRatio := supportMarketCap / total * 100
    if 90 ≤ trustRatio then (.trusted, trustRatio)
    else if 70 ≤ trustRatio then (.mixed, trustRatio)
    else (.untrusted, trustRatio)

/-- The fixed severity order list used by `getWorseDistribution`. -/
def statusOrder : List DistributionStatus :=
  [.wellDistributed, .moderate, .concentrated, .whaleDominated]

/-- Source `getWorseDistribution`: `aIndex >= bIndex ? a : b` on `statusOrder`. -/
def getWorseDistribution (a b : DistributionStatus) : DistributionStatus :=
  let aIndex := statusOrder.indexOf a
  let bIndex := statusOrder.indexOf b
  if bIndex ≤ aIndex then a else b

/-- Severity rank of a status under the fixed order (spec-side shorthand for
`statusOrder.indexOf`). -/
def statusSeverity : DistributionStatus → ℕ
  | .wellDistributed => 0
  | .moderate => 1
  | .concentrated => 2
  | .whaleDominated => 3

/-- Source `TrustDistributionAnalysis`. -/
structure TrustDistributionAnalysis where
  trustLevel : TrustLevel
  trustRatio : ℝ
  forDistribution : DistributionAnalysis ℝ
  againstDistribution : DistributionAnalysis ℝ
  overallDistribution : DistributionStatus
  overallSnapColor : SnapColor

/-- One side of `analyzeTrustDistribution`: positions path when present and
non-empty, aggregate estimate otherwise. -/
noncomputable def sideDistribution
    (positions : Option (List (PositionWithShares ℝ)))
    (aggregate : Option (PositionAggregate ℝ)) : DistributionAnalysis ℝ :=
  match positions with
  | some ps =>
      if ps.length > 0 then analyzePositionDistribution ps
      else estimateDistributionFromAggregate aggregate
  | none => estimateDistributionFromAggregate aggregate

/-- Source `analyzeTrustDistribution`. -/
noncomputable def analyzeTrustDistribution
    (supportMarketCap opposeMarketCap : ℝ)
    (forPositions againstPositions : Option (List (PositionWithShares ℝ)) := none)
    (forAggregate againstAggregate : Option (PositionAggregate ℝ) := none) :
    TrustDistributionAnalysis :=
  let tl := determineTrustLevel supportMarketCap opposeMarketCap
  let forDistribution := sideDistribution forPositions forAggregate
  let againstDistribution := sideDistribution againstPositions againstAggregate
  let overallDistribution :=
    getWorseDistribution forDistribution.status againstDistribution.status
  { trustLevel := tl.1, trustRatio := tl.2
    forDistribution := forDistribution
    againstDistribution := againstDistribution
    overallDistribution := overallDistribution
    overallSnapColor := DISTRIBUTION_SNAP_COLORS overallDistribution }

-- =============================================================================
-- trusted-circle/service : types
-- =============================================================================

/-- Source `TrustedContact` (`shares?` is optional: absent on circle entries,
always set on cross-referenced contacts). -/
structure TrustedContact where
  accountId : String
  label : String
  shares : Option String := none
deriving DecidableEq, Repr

/-- Source `TrustedCirclePositions`. -/
structure TrustedCirclePositions where
  forContacts : List TrustedContact
  againstContacts : List TrustedContact
deriving DecidableEq, Repr

/-- The `account` sub-record of a position. -/
structure AccountInfo where
  id : String
  label : String
deriving DecidableEq, Repr

/-- Source `PositionWithAccount` from the triple query. -/
structure PositionWithAccount where
  account_id : String
  shares : Option String := none
  account : Option AccountInfo := none
deriving DecidableEq, Repr

/-- Source `ClaimContext`: one (predicate label, object label) pair. -/
structure ClaimContext where
  predicateLabel : String
  objectLabel : String
deriving DecidableEq, Repr

/-- Source `FamiliarContact`. -/
structure FamiliarContact where
  accountId : String
  label : String
  claims : List ClaimContext
deriving DecidableEq, Repr

/-- Source `NetworkFamiliarity`. -/
structure NetworkFamiliarity where
  familiarContacts : List FamiliarContact
  totalClaimsAboutAddress : ℕ
deriving DecidableEq, Repr

/-- A `{ label }` record (`predicate` / `object` of a claim triple). -/
structure LabelRec where
  label : String
deriving DecidableEq, Repr

/-- A `{ account_id, shares }` position of a claim triple. -/
structure PosShare where
  account_id : String
  shares : String
deriving DecidableEq, Repr

/-- One triple from the "all claims about atom" query response. -/
structure TripleClaim where
  term_id : String := ""
  predicate : Option LabelRec := none
  object : Option LabelRec := none
  positions : List PosShare := []
  counter_positions : List PosShare := []
deriving DecidableEq, Repr

/-- An atom record from the atoms-for-addresses query. -/
structure AtomRec where
  term_id : String := ""
  label : String
  data : String
  image : Option String := none
deriving DecidableEq, Repr

-- =============================================================================
-- trusted-circle/service : JS Map model
-- =============================================================================

/-- Source `new Map(pairs)` lookup: later pairs overwrite earlier ones, so the last
matching binding wins. -/
def mapGet {β : Type} (pairs : List (String × β)) (key : String) : Option β :=
  pairs.reverse.lookup key

/-- The lowercased id set `trustedIds` built from the circle. -/
def circleIds (trustedCircle : List TrustedContact) : List String :=
  trustedCircle.map (fun c => lowerStr c.accountId)

/-- The `trustedLabels` map built from the circle (lowercased id → label). -/
def circleLabels (trustedCircle : List TrustedContact) : List (String × String) :=
  trustedCircle.map (fun c => (lowerStr c.accountId, c.label))

/-- JS `a || b || fallback` on the label chain: an empty string is falsy. -/
def firstTruthyLabel (v1 v2 : Option String) (fallback : String) : String :=
  match v1 with
  | some s =>
      if s ≠ "" then s
      else match v2 with
           | some t => if t ≠ "" then t else fallback
           | none => fallback
  | none =>
      match v2 with
      | some t => if t ≠ "" then t else fallback
      | none => fallback

-- =============================================================================
-- trusted-circle/service : getTrustedContactsWithPositions
-- =============================================================================

/-- Source `position.shares || '0'` (undefined and the empty string map to "0"). -/
def sharesOrZero (p : PositionWithAccount) : String :=
  match p.shares with
  | some s => if s = "" then "0" else s
  | none => "0"

/-- The per-position body of the filtering loops in
`getTrustedContactsWithPositions`: skip the user's own position, keep
trusted accounts (an empty lowercased id is falsy and never trusted), and
resolve the label by the `|| ` chain. -/
def contactFromPosition (trustedCircle : List TrustedContact)
    (normalizedUserAddress : Option String) (position : PositionWithAccount) :
    Option TrustedContact :=
  let accountId := lowerStr position.account_id
  if some accountId = normalizedUserAddress then none
  else if accountId ≠ "" ∧ (circleIds trustedCircle).contains accountId then
    some
      { accountId := position.account_id
        label := firstTruthyLabel (mapGet (circleLabels trustedCircle) accountId)
          (position.account.map (fun a => a.label))
          (formatAddress position.account_id)
        shares := some (sharesOrZero position) }
  else none

/-- The shares value a contact is sorted by: `BigInt(c.shares ?? '0')`. -/
def contactSharesNat (c : TrustedContact) : ℕ :=
  strToNat (c.shares.getD "0")

/-- The descending stable sort on contacts by exact integer shares. -/
def sortContactsDesc (l : List TrustedContact) : List TrustedContact :=
  l.insertionSort (fun a b => contactSharesNat b ≤ contactSharesNat a)

/-- Source `getTrustedContactsWithPositions`. -/
def getTrustedContactsWithPositions (trustedCircle : List TrustedContact)
    (forPositions againstPositions : List PositionWithAccount)
    (userAddress : Option String := none) : TrustedCirclePositions :=
  let normalizedUserAddress := userAddress.map lowerStr
  let forContacts :=
    forPositions.filterMap (contactFromPosition trustedCircle normalizedUserAddress)
  let againstContacts :=
    againstPositions.filterMap (contactFromPosition trustedCircle normalizedUserAddress)
  { forContacts := sortContactsDesc forContacts
    againstContacts := sortContactsDesc againstContacts }

-- =============================================================================
-- trusted-circle/service : getNetworkFamiliarity
-- =============================================================================

/-- Source `triple.predicate?.label || 'unknown'` / same for the object. -/
def labelOrUnknown (r : Option LabelRec) : String :=
  match r with
  | some l => if l.label ≠ "" then l.label else "unknown"
  | none => "unknown"

/-- The `ClaimContext` built for one triple. -/
def claimOfTriple (t : TripleClaim) : ClaimContext :=
  { predicateLabel := labelOrUnknown t.predicate
    objectLabel := labelOrUnknown t.object }

/-- All position-holder account ids of a triple (FOR then AGAINST). -/
def allPositionAccounts (t : TripleClaim) : List String :=
  t.positions.map (fun p => p.account_id)
    ++ t.counter_positions.map (fun p => p.account_id)

/-- The projection of a claim used for de-duplication. -/
def claimPair (c : ClaimContext) : String × String :=
  (c.predicateLabel, c.objectLabel)

/-- Source `existing.claims.push(claim)` guarded by the `hasClaim` duplicate check. -/
def pushClaimIfNew (fc : FamiliarContact) (cl : ClaimContext) : FamiliarContact :=
  if fc.claims.any (fun c =>
      c.predicateLabel == cl.predicateLabel && c.objectLabel == cl.objectLabel)
  then fc
  else { fc with claims := fc.claims ++ [cl] }

/-- One iteration of the inner loop of `getNetworkFamiliarity`: skip the
user, the already-displayed ids and non-trusted accounts, then update or
insert the contact's entry in the insertion-ordered map. -/
def familiarityStep (trustedCircle : List TrustedContact)
    (alreadyDisplayedIds : List String) (normalizedUserAddress : Option String)
    (cl : ClaimContext) (m : List (String × FamiliarContact))
    (accountId : String) : List (String × FamiliarContact) :=
  let normalized := lowerStr accountId
  if some normalized = normalizedUserAddress then m
  else if alreadyDisplayedIds.contains normalized then m
  else if ¬ (circleIds trustedCircle).contains normalized then m
  else
    match mapGet m normalized with
    | some _ => m.map (fun kv =>
        if kv.1 = normalized then (kv.1, pushClaimIfNew kv.2 cl) else kv)
    | none =>
        m ++ [(normalized,
          { accountId := accountId
            label := firstTruthyLabel (mapGet (circleLabels trustedCircle) normalized)
              none (formatAddress accountId)
            claims := [cl] })]

/-- The accumulated contact-claims map over all triples. -/
def familiarityMap (trustedCircle : List TrustedContact)
    (alreadyDisplayedIds : List String) (normalizedUserAddress : Option String)
    (triples : List TripleClaim) : List (String × FamiliarContact) :=
  triples.foldl
    (fun m t =>
      (allPositionAccounts t).foldl
        (familiarityStep trustedCircle alreadyDisplayedIds normalizedUserAddress
          (claimOfTriple t)) m)
    []

/-- Source `getNetworkFamiliarity`. The Data Provider call is modelled by the
`queryOutcome` parameter; the `catch` branch is the `.error` case. -/
def getNetworkFamiliarity (trustedCircle : List TrustedContact)
    (alreadyDisplayedIds : List String) (userAddress : Option String)
    (queryOutcome : Except Unit (List TripleClaim)) :
    Option NetworkFamiliarity :=
  if trustedCircle = [] then none
  else
    match queryOutcome with
    | .error _ => none
    | .ok triples =>
      if triples = [] then none
      else
        let normalizedUserAddress := userAddress.map lowerStr
        let familiarContacts :=
          (familiarityMap trustedCircle alreadyDisplayedIds
            normalizedUserAddress triples).map (fun kv => kv.2)
        if familiarContacts = [] then none
        else some
          { familiarContacts := familiarContacts
            totalClaimsAboutAddress := triples.length }

-- =============================================================================
-- trusted-circle/service : enrichContactLabels
-- =============================================================================

/-- Source `Map.prototype.set`: overwrite in place when the key exists, append
otherwise. -/
def mapSet (m : List (String × String)) (k v : String) : List (String × String) :=
  if (mapGet m k).isSome then
    m.map (fun kv => if kv.1 = k then (k, v) else kv)
  else m ++ [(k, v)]

/-- The label-map building loop of `enrichContactLabels`: map each atom's
data address and label address (when it is a resolved, non-address name)
to the label. -/
def buildLabelMap (atoms : List AtomRec) : List (String × String) :=
  atoms.foldl
    (fun labelMap atom =>
      let addressFromData := lowerStr atom.data
      let addressFromLabel := lowerStr atom.label
      let isResolvedName := atom.label ≠ "" ∧ ¬ isEvmAddressCI atom.label
      let m1 :=
        if addressFromData ≠ "" ∧ isResolvedName then
          mapSet labelMap addressFromData atom.label
        else labelMap
      if addressFromLabel ≠ "" ∧ isResolvedName ∧ addressFromLabel ≠ addressFromData then
        mapSet m1 addressFromLabel atom.label
      else m1)
    []

/-- Source `enrichContact`: resolved label when the map has a truthy entry, else
truncate an address-shaped label, else unchanged. -/
def enrichContact (labelMap : List (String × String)) (contact : TrustedContact) :
    TrustedContact :=
  let normalizedAddress := lowerStr contact.accountId
  match mapGet labelMap normalizedAddress with
  | some resolvedLabel =>
      if resolvedLabel ≠ "" then { contact with label := resolvedLabel }
      else if isEvmAddressCI contact.label then
        { contact with label := formatAddress contact.label }
      else contact
  | none =>
      if isEvmAddressCI contact.label then
        { contact with label := formatAddress contact.label }
      else contact

/-- The `catch`-branch fallback `formatContact`. -/
def formatContact (contact : TrustedContact) : TrustedContact :=
  { contact with
    label := if isEvmAddressCI contact.label then formatAddress contact.label
             else contact.label }

/-- Source `enrichContactLabels`. The batch Data Provider query is modelled by the
`queryOutcome` parameter; the `catch` branch is the `.error` case. -/
def enrichContactLabels (positions : TrustedCirclePositions)
    (queryOutcome : Except Unit (List AtomRec)) : TrustedCirclePositions :=
  let allContacts := positions.forContacts ++ positions.againstContacts
  if allContacts = [] then positions
  else
    match queryOutcome with
    | .ok atoms =>
        let labelMap := buildLabelMap atoms
        { forContacts := positions.forContacts.map (enrichContact labelMap)
          againstContacts := positions.againstContacts.map (enrichContact labelMap) }
    | .error _ =>
        { forContacts := positions.forContacts.map formatContact
          againstContacts := positions.againstContacts.map formatContact }

-- =============================================================================
-- Spec-side properties used by claim statements
-- =============================================================================

/-- The label-priority property of claim cross-referencing: trusted-circle
cached label first (when truthy), then the position's own account label
(when present and truthy), then the truncated-address fallback. -/
def labelPriority (trustedCircle : List TrustedContact)
    (p : PositionWithAccount) (lbl : String) : Prop :=
  let tl := mapGet (circleLabels trustedCircle) (lowerStr p.account_id)
  let al := p.account.map (fun a => a.label)
  (∀ s, tl = some s → s ≠ "" → lbl = s) ∧
  ((tl = none ∨ tl = some "") →
    (∀ s, al = some s → s ≠ "" → lbl = s) ∧
    ((al = none ∨ al = some "") → lbl = formatAddress p.account_id))

/-- What claim C6 requires of one cross-referenced contact of one side. -/
def contactSideOk (trustedCircle : List TrustedContact)
    (positions : List PositionWithAccount) (userAddress : Option String)
    (c : TrustedContact) : Prop :=
  (∃ t ∈ trustedCircle, lowerStr t.accountId = lowerStr c.accountId) ∧
  (∀ u, userAddress = some u → lowerStr c.accountId ≠ lowerStr u) ∧
  ∃ p ∈ positions, p.account_id = c.accountId ∧
    c.shares = some (sharesOrZero p) ∧ labelPriority trustedCircle p c.label

/-- Invariant of the accumulated network-familiarity map: every entry is a
trusted, non-user, non-displayed contact keyed by its lowercased id, with
de-duplicated claims. -/
def familiarEntryOk (trustedCircle : List TrustedContact)
    (alreadyDisplayedIds : List String) (normalizedUserAddress : Option String)
    (kv : String × FamiliarContact) : Prop :=
  kv.1 = lowerStr kv.2.accountId ∧
  (circleIds trustedCircle).contains kv.1 = true ∧
  some kv.1 ≠ normalizedUserAddress ∧
  alreadyDisplayedIds.contains kv.1 = false ∧
  (kv.2.claims.map claimPair).Nodup ∧
  kv.2.claims ≠ []

-- =============================================================================
-- Theorems
-- =============================================================================

/-- C1: `determineStatus` applies the first-match decision order: top-1 share
at or above 80 percent is whale-dominated regardless of gini and staker
count; otherwise zero stakers are well-distributed; otherwise fewer than 3
stakers are concentrated; otherwise the gini bands at 0.35 / 0.55 / 0.75
decide the status. -/
theorem determineStatus_decision_order (gini top1Percent : ℚ) (stakerCount : ℕ)
    (hg0 : 0 ≤ gini) (hg1 : gini ≤ 1) (ht0 : 0 ≤ top1Percent) (ht1 : top1Percent ≤ 100) :
    (80 ≤ top1Percent → determineStatus gini top1Percent stakerCount = .whaleDominated) ∧
    (top1Percent < 80 → stakerCount = 0 →
      determineStatus gini top1Percent stakerCount = .wellDistributed) ∧
    (top1Percent < 80 → stakerCount ≠ 0 → stakerCount < 3 →
      determineStatus gini top1Percent stakerCount = .concentrated) ∧
    (top1Percent < 80 → 3 ≤ stakerCount → gini ≤ 0.35 →
      determineStatus gini top1Percent stakerCount = .wellDistributed) ∧
    (top1Percent < 80 → 3 ≤ stakerCount → 0.35 < gini → gini ≤ 0.55 →
      determineStatus gini top1Percent stakerCount = .moderate) ∧
    (top1Percent < 80 → 3 ≤ stakerCount → 0.55 < gini → gini ≤ 0.75 →
      determineStatus gini top1Percent stakerCount = .concentrated) ∧
    (top1Percent < 80 → 3 ≤ stakerCount → 0.75 < gini →
      determineStatus gini top1Percent stakerCount = .whaleDominated) := by
  refine ⟨fun h1 => ?_, fun h1 h2 => ?_, fun h1 h2 h3 => ?_, fun h1 h2 h3 => ?_,
    fun h1 h2 h3 h4 => ?_, fun h1 h2 h3 h4 => ?_, fun h1 h2 h3 => ?_⟩ <;>
    simp only [determineStatus, DISTRIBUTION_THRESHOLDS] <;>
    split_ifs <;>
    first
      | rfl
      | (exfalso; first | omega | linarith)

/-- Witness for C1 at gini 0.2, top1 85, 5 stakers. -/
theorem determineStatus_decision_order_witness :
    (80 ≤ (85 : ℚ) → determineStatus (0.2 : ℚ) 85 5 = .whaleDominated) ∧
    ((85 : ℚ) < 80 → (5 : ℕ) = 0 → determineStatus (0.2 : ℚ) 85 5 = .wellDistributed) ∧
    ((85 : ℚ) < 80 → (5 : ℕ) ≠ 0 → 5 < 3 → determineStatus (0.2 : ℚ) 85 5 = .concentrated) ∧
    ((85 : ℚ) < 80 → 3 ≤ 5 → (0.2 : ℚ) ≤ 0.35 →
      determineStatus (0.2 : ℚ) 85 5 = .wellDistributed) ∧
    ((85 : ℚ) < 80 → 3 ≤ 5 → (0.35 : ℚ) < 0.2 → (0.2 : ℚ) ≤ 0.55 →
      determineStatus (0.2 : ℚ) 85 5 = .moderate) ∧
    ((85 : ℚ) < 80 → 3 ≤ 5 → (0.55 : ℚ) < 0.2 → (0.2 : ℚ) ≤ 0.75 →
      determineStatus (0.2 : ℚ) 85 5 = .concentrated) ∧
    ((85 : ℚ) < 80 → 3 ≤ 5 → (0.75 : ℚ) < 0.2 → determineStatus (0.2 : ℚ) 85 5 = .whaleDominated) :=
  determineStatus_decision_order 0.2 85 5 (by norm_num) (by norm_num) (by norm_num) (by norm_num)

/-- Source `sortDesc` on a two-element list. -/
theorem sortDesc_pair (a b : ℚ) : sortDesc [a, b] = if b ≤ a then [a, b] else [b, a] := by
  simp [sortDesc, List.insertionSort, List.orderedInsert]

/-- Top-1 concentration of a two-element positive list is the share of the
larger element. -/
theorem calculateTopNPercent_pair (a b : ℚ) (ha : 0 < a) (hb : 0 < b) :
    calculateTopNPercent [a, b] 1 = max a b / (a + b) * 100 := by
  have hfilter : List.filter (fun v => decide (0 < v)) [a, b] = [a, b] := by
    simp [List.filter, ha, hb]
  simp only [calculateTopNPercent, hfilter]
  rw [if_neg (by simp), sortDesc_pair]
  have hsum : ([a, b] : List ℚ).sum = a + b := by simp
  rw [hsum, if_neg (by positivity)]
  by_cases hba : b ≤ a
  · rw [if_pos hba]
    simp [max_eq_left hba]
  · rw [if_neg hba]
    simp [max_eq_right (le_of_not_le hba)]

/-- Source `analyzeShareDistribution` on a list with exactly two positive entries. -/
theorem analyzeShareDistribution_two (shares : List ℚ) (a b : ℚ)
    (hfilter : shares.filter (fun v => 0 < v) = [a, b]) :
    0 < a ∧ 0 < b ∧
    (analyzeShareDistribution shares).top1Percent = max a b / (a + b) * 100 ∧
    (analyzeShareDistribution shares).stakerCount = 2 ∧
    (analyzeShareDistribution shares).status =
      determineStatus (calculateGini [a, b]) (max a b / (a + b) * 100) 2 := by
  have ha : 0 < a := by
    have : a ∈ shares.filter (fun v => decide (0 < v)) := by rw [hfilter]; simp
    simpa using (List.mem_filter.mp this).2
  have hb : 0 < b := by
    have : b ∈ shares.filter (fun v => decide (0 < v)) := by rw [hfilter]; simp
    simpa using (List.mem_filter.mp this).2
  refine ⟨ha, hb, ?_, ?_, ?_⟩ <;>
    simp only [analyzeShareDistribution, hfilter] <;>
    rw [if_neg (by simp)] <;>
    simp [calculateTopNPercent_pair a b ha hb]

/-- C4 counterexample: the whale check precedes the staker-count check, so
`determineStatus` with stakerCount 0 and top1Percent 90 returns
whale-dominated, not well-distributed. -/
theorem determineStatus_zeroStakers_counterexample :
    determineStatus (0 : ℚ) 90 0 = .whaleDominated ∧
    determineStatus (0 : ℚ) 90 0 ≠ .wellDistributed := by decide

/-- C4 (amended): provided top1Percent < 80, stakerCount 0 yields
well-distributed and stakerCounts 1 and 2 yield concentrated; a list with
exactly two positive shares always has top-1 share at least 50 percent, is
never well-distributed or moderate, and is concentrated exactly when the
larger value is below 80 percent of the total, whale-dominated otherwise. -/
theorem determineStatus_low_staker_counts (gini top1Percent : ℚ)
    (h80 : top1Percent < 80) :
    determineStatus gini top1Percent 0 = .wellDistributed ∧
    determineStatus gini top1Percent 1 = .concentrated ∧
    determineStatus gini top1Percent 2 = .concentrated ∧
    ∀ (shares : List ℚ) (a b : ℚ), shares.filter (fun v => 0 < v) = [a, b] →
      50 ≤ (analyzeShareDistribution shares).top1Percent ∧
      (analyzeShareDistribution shares).status ≠ .wellDistributed ∧
      (analyzeShareDistribution shares).status ≠ .moderate ∧
      (max a b < 0.8 * (a + b) →
        (analyzeShareDistribution shares).status = .concentrated) ∧
      (0.8 * (a + b) ≤ max a b →
        (analyzeShareDistribution shares).status = .whaleDominated) := by
  have hns : ∀ n : ℕ, n = 1 ∨ n = 2 →
      determineStatus gini top1Percent n = .concentrated := by
    intro n hn
    simp only [determineStatus, DISTRIBUTION_THRESHOLDS]
    split_ifs <;> first | rfl | omega | linarith | simp_all
  refine ⟨?_, hns 1 (Or.inl rfl), hns 2 (Or.inr rfl), ?_⟩
  · simp only [determineStatus, DISTRIBUTION_THRESHOLDS]
    split_ifs <;> first | rfl | omega | linarith | simp_all
  · intro shares a b hfilter
    obtain ⟨ha, hb, htop, _, hstat⟩ := analyzeShareDistribution_two shares a b hfilter
    have hab : (0 : ℚ) < a + b := by positivity
    have hmax2 : a + b ≤ 2 * max a b := by
      rcases le_total a b with h | h
      · rw [max_eq_right h]; linarith
      · rw [max_eq_left h]; linarith
    have h50 : (50 : ℚ) ≤ max a b / (a + b) * 100 := by
      rw [div_mul_eq_mul_div, le_div_iff₀ hab]
      linarith
    have hiff : max a b / (a + b) * 100 < 80 ↔ max a b < 0.8 * (a + b) := by
      rw [div_mul_eq_mul_div, div_lt_iff₀ hab]
      constructor <;> intro <;> linarith
    by_cases hw : (80 : ℚ) ≤ max a b / (a + b) * 100
    · have hS : (analyzeShareDistribution shares).status = .whaleDominated := by
        rw [hstat]
        simp only [determineStatus, DISTRIBUTION_THRESHOLDS]
        rw [if_pos hw]
      refine ⟨?_, ?_, ?_, ?_, fun _ => hS⟩
      · rw [htop]; exact h50
      · rw [hS]; simp
      · rw [hS]; simp
      · intro hlt
        exact absurd (hiff.mpr hlt) (not_lt.mpr hw)
    · have hS : (analyzeShareDistribution shares).status = .concentrated := by
        rw [hstat]
        simp only [determineStatus, DISTRIBUTION_THRESHOLDS]
        rw [if_neg hw, if_neg (by omega), if_pos (by omega)]
      refine ⟨?_, ?_, ?_, fun _ => hS, ?_⟩
      · rw [htop]; exact h50
      · rw [hS]; simp
      · rw [hS]; simp
      · intro hge
        exact absurd (hiff.mp (lt_of_not_le hw)) (not_lt.mpr hge)

/-- Witness for C4 (amended) at gini 0.2, top1 50. -/
theorem determineStatus_low_staker_counts_witness :
    (0.2 : ℚ) < 80 ∧ determineStatus (0.2 : ℚ) 50 0 = .wellDistributed :=
  ⟨by norm_num, (determineStatus_low_staker_counts 0.2 50 (by norm_num)).1⟩

/-- The snap and hex colors of any analysis result are the table lookups of
its status, in both the empty and the non-empty branch. -/
theorem analyzeShareDistribution_colors (l : List ℚ) :
    (analyzeShareDistribution l).snapColor =
      DISTRIBUTION_SNAP_COLORS (analyzeShareDistribution l).status ∧
    (analyzeShareDistribution l).hexColor =
      DISTRIBUTION_HEX_COLORS (analyzeShareDistribution l).status := by
  simp only [analyzeShareDistribution]
  split <;> exact ⟨rfl, rfl⟩

/-- In the non-empty branch the labels are the table lookups of the status. -/
theorem analyzeShareDistribution_labels_of_pos (l : List ℚ)
    (h : 0 < (analyzeShareDistribution l).stakerCount) :
    (analyzeShareDistribution l).label =
      DISTRIBUTION_LABELS (analyzeShareDistribution l).status ∧
    (analyzeShareDistribution l).shortLabel =
      DISTRIBUTION_SHORT_LABELS (analyzeShareDistribution l).status := by
  by_cases he : (l.filter (fun v => 0 < v)).length = 0
  · exfalso
    have : (analyzeShareDistribution l).stakerCount = 0 := by
      simp only [analyzeShareDistribution]
      rw [if_pos he]
    omega
  · simp only [analyzeShareDistribution]
    rw [if_neg he]
    exact ⟨rfl, rfl⟩

/-- In the empty branch the labels are the distinguished "No Stakes" pair. -/
theorem analyzeShareDistribution_labels_of_zero (l : List ℚ)
    (h : (analyzeShareDistribution l).stakerCount = 0) :
    (analyzeShareDistribution l).label = "No Stakes" ∧
    (analyzeShareDistribution l).shortLabel = "None" := by
  by_cases he : (l.filter (fun v => 0 < v)).length = 0
  · simp only [analyzeShareDistribution]
    rw [if_pos he]
    exact ⟨rfl, rfl⟩
  · exfalso
    have : (analyzeShareDistribution l).stakerCount =
        (l.filter (fun v => 0 < v)).length := by
      simp only [analyzeShareDistribution]
      rw [if_neg he]
    omega

/-- The status of a non-empty analysis is `determineStatus` of the computed
gini, top-1 share and staker count of the filtered list. -/
theorem analyzeShareDistribution_status_eq (l : List ℚ)
    (h : ¬ (l.filter (fun v => 0 < v)).length = 0) :
    (analyzeShareDistribution l).status =
      determineStatus (calculateGini (l.filter (fun v => 0 < v)))
        (calculateTopNPercent (l.filter (fun v => 0 < v)) 1)
        (l.filter (fun v => 0 < v)).length := by
  simp only [analyzeShareDistribution]
  rw [if_neg h]

/-- Concrete evaluation: the positive filter keeps `[1, 1, 1]` whole. -/
theorem filter_111 : ([(1 : ℚ), 1, 1]).filter (fun v => 0 < v) = [1, 1, 1] := by
  norm_num [List.filter]

/-- Concrete evaluation: gini of three equal stakes is 0. -/
theorem gini_111 : calculateGini [(1 : ℚ), 1, 1] = 0 := by
  norm_num [calculateGini, sumDifferences, List.filter]

/-- Concrete evaluation: top-1 share of three equal stakes. -/
theorem top1_111 : calculateTopNPercent [(1 : ℚ), 1, 1] 1 = 100 / 3 := by
  norm_num [calculateTopNPercent, sortDesc, List.insertionSort, List.orderedInsert,
    List.filter]
  simp

/-- Concrete evaluation: `[1, 1, 1]` classifies as well-distributed. -/
theorem status_111 : (analyzeShareDistribution [(1 : ℚ), 1, 1]).status = .wellDistributed := by
  rw [analyzeShareDistribution_status_eq _ (by rw [filter_111]; simp), filter_111,
    gini_111, top1_111]
  simp only [determineStatus, DISTRIBUTION_THRESHOLDS]
  rw [if_neg (by norm_num), if_neg (by norm_num), if_neg (by norm_num),
    if_pos (by norm_num)]

/-- Concrete evaluation: the positive filter keeps `[2, 2, 2, 2]` whole. -/
theorem filter_2222 : ([(2 : ℚ), 2, 2, 2]).filter (fun v => 0 < v) = [2, 2, 2, 2] := by
  norm_num [List.filter]

/-- Concrete evaluation: gini of four equal stakes is 0. -/
theorem gini_2222 : calculateGini [(2 : ℚ), 2, 2, 2] = 0 := by
  norm_num [calculateGini, sumDifferences, List.filter]

/-- Concrete evaluation: top-1 share of four equal stakes. -/
theorem top1_2222 : calculateTopNPercent [(2 : ℚ), 2, 2, 2] 1 = 25 := by
  norm_num [calculateTopNPercent, sortDesc, List.insertionSort, List.orderedInsert,
    List.filter]
  simp

/-- Concrete evaluation: `[2, 2, 2, 2]` classifies as well-distributed. -/
theorem status_2222 :
    (analyzeShareDistribution [(2 : ℚ), 2, 2, 2]).status = .wellDistributed := by
  rw [analyzeShareDistribution_status_eq _ (by rw [filter_2222]; simp), filter_2222,
    gini_2222, top1_2222]
  simp only [determineStatus, DISTRIBUTION_THRESHOLDS]
  rw [if_neg (by norm_num), if_neg (by norm_num), if_neg (by norm_num),
    if_pos (by norm_num)]

/-- Concrete evaluation: the non-empty result `[1, 1, 1]` carries the
table label of its status. -/
theorem label_111 : (analyzeShareDistribution [(1 : ℚ), 1, 1]).label = "Well Distributed" := by
  have hpos : 0 < (analyzeShareDistribution [(1 : ℚ), 1, 1]).stakerCount := by
    simp only [analyzeShareDistribution]
    rw [if_neg (by rw [filter_111]; simp)]
    rw [filter_111]
    simp
  rw [(analyzeShareDistribution_labels_of_pos _ hpos).1, status_111]
  rfl

/-- C5 counterexample: the empty input and `[1, 1, 1]` both have status
well-distributed, but the empty result carries the distinguished
"No Stakes" label, so equal status does not force equal label. -/
theorem presentation_fields_counterexample :
    (analyzeShareDistribution ([] : List ℚ)).status =
      (analyzeShareDistribution [(1 : ℚ), 1, 1]).status ∧
    (analyzeShareDistribution ([] : List ℚ)).label ≠
      (analyzeShareDistribution [(1 : ℚ), 1, 1]).label := by
  constructor
  · rw [status_111]
    rfl
  · rw [label_111]
    decide

/-- C5 (amended): equal status forces equal snapColor and hexColor in all
cases; it also forces equal label and shortLabel as soon as the two results
are both non-empty (or both empty): only the zeroed "No Stakes" result
breaks label equality. -/
theorem status_determines_presentation (a b : List ℚ)
    (hstatus : (analyzeShareDistribution a).status = (analyzeShareDistribution b).status) :
    (analyzeShareDistribution a).snapColor = (analyzeShareDistribution b).snapColor ∧
    (analyzeShareDistribution a).hexColor = (analyzeShareDistribution b).hexColor ∧
    (0 < (analyzeShareDistribution a).stakerCount →
      0 < (analyzeShareDistribution b).stakerCount →
      (analyzeShareDistribution a).label = (analyzeShareDistribution b).label ∧
      (analyzeShareDistribution a).shortLabel = (analyzeShareDistribution b).shortLabel) ∧
    ((analyzeShareDistribution a).stakerCount = 0 →
      (analyzeShareDistribution b).stakerCount = 0 →
      (analyzeShareDistribution a).label = (analyzeShareDistribution b).label ∧
      (analyzeShareDistribution a).shortLabel = (analyzeShareDistribution b).shortLabel) := by
  obtain ⟨hca, hha⟩ := analyzeShareDistribution_colors a
  obtain ⟨hcb, hhb⟩ := analyzeShareDistribution_colors b
  refine ⟨by rw [hca, hcb, hstatus], by rw [hha, hhb, hstatus], ?_, ?_⟩
  · intro hpa hpb
    obtain ⟨hla, hsa⟩ := analyzeShareDistribution_labels_of_pos a hpa
    obtain ⟨hlb, hsb⟩ := analyzeShareDistribution_labels_of_pos b hpb
    exact ⟨by rw [hla, hlb, hstatus], by rw [hsa, hsb, hstatus]⟩
  · intro hza hzb
    obtain ⟨hla, hsa⟩ := analyzeShareDistribution_labels_of_zero a hza
    obtain ⟨hlb, hsb⟩ := analyzeShareDistribution_labels_of_zero b hzb
    exact ⟨by rw [hla, hlb], by rw [hsa, hsb]⟩

/-- Witness for C5 (amended) at `[1, 1, 1]` and `[2, 2, 2, 2]`. -/
theorem status_determines_presentation_witness :
    (analyzeShareDistribution [(1 : ℚ), 1, 1]).snapColor =
      (analyzeShareDistribution [(2 : ℚ), 2, 2, 2]).snapColor :=
  (status_determines_presentation [1, 1, 1] [2, 2, 2, 2]
    (by rw [status_111, status_2222])).1

/-- The pairwise absolute-difference sum is invariant under permutation. -/
theorem sumDifferences_perm {P Q : List ℚ} (h : P.Perm Q) :
    sumDifferences P = sumDifferences Q := by
  unfold sumDifferences
  have inner : ∀ x : ℚ,
      (P.map (fun y => |x - y|)).sum = (Q.map (fun y => |x - y|)).sum :=
    fun x => (h.map (fun y => |x - y|)).sum_eq
  calc (P.map (fun vI => (P.map (fun vJ => |vI - vJ|)).sum)).sum
      = (P.map (fun vI => (Q.map (fun vJ => |vI - vJ|)).sum)).sum := by
        rw [show (fun vI : ℚ => (P.map (fun vJ => |vI - vJ|)).sum)
            = (fun vI : ℚ => (Q.map (fun vJ => |vI - vJ|)).sum) from funext inner]
    _ = (Q.map (fun vI => (Q.map (fun vJ => |vI - vJ|)).sum)).sum :=
        (h.map _).sum_eq

/-- Gini is invariant under permutation of the input list. -/
theorem calculateGini_perm {l l' : List ℚ} (h : l.Perm l') :
    calculateGini l = calculateGini l' := by
  have hf : (l.filter (fun v => decide (0 < v))).Perm
      (l'.filter (fun v => decide (0 < v))) := h.filter _
  have hlen := hf.length_eq
  have hsum := hf.sum_eq
  have hsd := sumDifferences_perm hf
  simp only [calculateGini]
  rw [hlen, hsum, hsd]

/-- Gini lies in the unit interval on every input. -/
theorem calculateGini_bounds (l : List ℚ) :
    0 ≤ calculateGini l ∧ calculateGini l ≤ 1 := by
  simp only [calculateGini]
  split_ifs <;>
    first
      | exact ⟨le_refl 0, zero_le_one⟩
      | exact ⟨le_max_left 0 _, max_le zero_le_one (min_le_left 1 _)⟩

/-- The pairwise absolute-difference sum of a constant list is 0. -/
theorem sumDifferences_const {l : List ℚ} {v : ℚ} (h : ∀ x ∈ l, x = v) :
    sumDifferences l = 0 := by
  unfold sumDifferences
  apply List.sum_eq_zero
  intro z hz
  obtain ⟨x, hx, hxz⟩ := List.mem_map.mp hz
  subst hxz
  apply List.sum_eq_zero
  intro w hw
  obtain ⟨y, hy, hyw⟩ := List.mem_map.mp hw
  subst hyw
  rw [h x hx, h y hy, sub_self, abs_zero]

/-- Gini of any list whose positive entries are all one constant is 0. -/
theorem calculateGini_const (l : List ℚ) (v : ℚ)
    (h : ∀ x ∈ l.filter (fun u => 0 < u), x = v) : calculateGini l = 0 := by
  have hsd : sumDifferences (l.filter (fun u => decide (0 < u))) = 0 :=
    sumDifferences_const h
  simp only [calculateGini]
  split_ifs <;> first | rfl | (rw [hsd, zero_div]; norm_num)

/-- C3: `calculateGini` discards non-positive entries, returns 0 when fewer
than 2 positive entries remain, and otherwise returns the relative mean
absolute difference clamped to `[0, 1]`; consequently it always lies in
`[0, 1]`, is permutation-invariant, and vanishes on constant lists, in
particular on `[100, 100, 100]` and `[300]`. -/
theorem calculateGini_spec (l : List ℚ) :
    (0 ≤ calculateGini l ∧ calculateGini l ≤ 1) ∧
    (∀ l' : List ℚ, l.Perm l' → calculateGini l = calculateGini l') ∧
    ((l.filter (fun v => 0 < v)).length < 2 → calculateGini l = 0) ∧
    (2 ≤ (l.filter (fun v => 0 < v)).length →
      calculateGini l =
        max 0 (min 1 (sumDifferences (l.filter (fun v => 0 < v)) /
          (2 * ((l.filter (fun v => 0 < v)).length : ℚ) *
            ((l.filter (fun v => 0 < v)).length : ℚ) *
            ((l.filter (fun v => 0 < v)).sum /
              ((l.filter (fun v => 0 < v)).length : ℚ)))))) ∧
    (∀ v : ℚ, (∀ x ∈ l.filter (fun u => 0 < u), x = v) → calculateGini l = 0) ∧
    calculateGini [(100 : ℚ), 100, 100] = 0 ∧
    calculateGini [(300 : ℚ)] = 0 := by
  refine ⟨calculateGini_bounds l, fun l' h => calculateGini_perm h, ?_, ?_,
    fun v h => calculateGini_const l v h, ?_, ?_⟩
  · intro hlt
    simp only [calculateGini]
    split_ifs <;> first | rfl | omega
  · intro h2
    have hnil : l.filter (fun v => decide (0 < v)) ≠ [] := by
      intro hnil
      rw [hnil] at h2
      simp at h2
    have hpos : 0 < (l.filter (fun v => decide (0 < v))).sum := by
      apply List.sum_pos
      · intro x hx
        simpa using (List.mem_filter.mp hx).2
      · exact hnil
    have hlenpos : (0 : ℚ) < ((l.filter (fun v => decide (0 < v))).length : ℚ) := by
      have : 0 < (l.filter (fun v => decide (0 < v))).length := by omega
      exact_mod_cast this
    simp only [calculateGini]
    rw [if_neg (by omega), if_neg (by omega), if_neg (div_pos hpos hlenpos).ne']
  · exact calculateGini_const _ 100 (by
      intro x hx
      simp only [List.mem_filter] at hx
      have hm := hx.1
      simp only [List.mem_cons, List.not_mem_nil, or_false] at hm
      rcases hm with rfl | rfl | rfl <;> rfl)
  · exact calculateGini_const _ 300 (by
      intro x hx
      simp only [List.mem_filter] at hx
      have hm := hx.1
      simp only [List.mem_cons, List.not_mem_nil, or_false] at hm
      rw [hm])

/-- Witness for C3 at `[5, 3]` and its permutation `[3, 5]`. -/
theorem calculateGini_spec_witness :
    (0 ≤ calculateGini [(5 : ℚ), 3] ∧ calculateGini [(5 : ℚ), 3] ≤ 1) ∧
    calculateGini [(5 : ℚ), 3] = calculateGini [(3 : ℚ), 5] :=
  ⟨(calculateGini_spec [5, 3]).1,
    (calculateGini_spec [5, 3]).2.1 [3, 5] (List.Perm.swap 3 5 [])⟩

/-- Source `getWorseDistribution` picks the equal-or-more-severe status under the
fixed order, with ties resolved to its first (FOR) argument. -/
theorem getWorseDistribution_spec (a b : DistributionStatus) :
    statusSeverity (getWorseDistribution a b) =
      max (statusSeverity a) (statusSeverity b) ∧
    (statusSeverity a = statusSeverity b → getWorseDistribution a b = a) ∧
    (getWorseDistribution a b = a ∨ getWorseDistribution a b = b) := by
  cases a <;> cases b <;> decide

/-- C2: `analyzeTrustDistribution` classifies trust exactly as the trust
classifier (zero totals give no-stakes with neutral ratio 50; otherwise
ratio = support / (support + oppose) * 100 with bands at 90 and 70), uses
the exact-positions path per side when the position list is present and
non-empty and the aggregate estimate otherwise, and its overall status is
the equal-or-more-severe of the two sides with ties resolved to FOR. -/
theorem analyzeTrustDistribution_spec (s o : ℝ) (hs : 0 ≤ s) (ho : 0 ≤ o)
    (fp ap : Option (List (PositionWithShares ℝ)))
    (fa aa : Option (PositionAggregate ℝ)) :
    ((s = 0 ∧ o = 0) →
      (analyzeTrustDistribution s o fp ap fa aa).trustLevel = .noStakes ∧
      (analyzeTrustDistribution s o fp ap fa aa).trustRatio = 50) ∧
    (¬ (s = 0 ∧ o = 0) →
      (analyzeTrustDistribution s o fp ap fa aa).trustRatio = s / (s + o) * 100 ∧
      (90 ≤ s / (s + o) * 100 →
        (analyzeTrustDistribution s o fp ap fa aa).trustLevel = .trusted) ∧
      (70 ≤ s / (s + o) * 100 → s / (s + o) * 100 < 90 →
        (analyzeTrustDistribution s o fp ap fa aa).trustLevel = .mixed) ∧
      (s / (s + o) * 100 < 70 →
        (analyzeTrustDistribution s o fp ap fa aa).trustLevel = .untrusted)) ∧
    (∀ ps, fp = some ps → ps ≠ [] →
      (analyzeTrustDistribution s o fp ap fa aa).forDistribution =
        analyzePositionDistribution ps) ∧
    ((fp = none ∨ fp = some []) →
      (analyzeTrustDistribution s o fp ap fa aa).forDistribution =
        estimateDistributionFromAggregate fa) ∧
    (∀ ps, ap = some ps → ps ≠ [] →
      (analyzeTrustDistribution s o fp ap fa aa).againstDistribution =
        analyzePositionDistribution ps) ∧
    ((ap = none ∨ ap = some []) →
      (analyzeTrustDistribution s o fp ap fa aa).againstDistribution =
        estimateDistributionFromAggregate aa) ∧
    statusSeverity (analyzeTrustDistribution s o fp ap fa aa).overallDistribution =
      max (statusSeverity (analyzeTrustDistribution s o fp ap fa aa).forDistribution.status)
        (statusSeverity (analyzeTrustDistribution s o fp ap fa aa).againstDistribution.status) ∧
    (statusSeverity (analyzeTrustDistribution s o fp ap fa aa).forDistribution.status =
        statusSeverity (analyzeTrustDistribution s o fp ap fa aa).againstDistribution.status →
      (analyzeTrustDistribution s o fp ap fa aa).overallDistribution =
        (analyzeTrustDistribution s o fp ap fa aa).forDistribution.status) := by
  refine ⟨?_, ?_, ?_, ?_, ?_, ?_, ?_, ?_⟩
  · rintro ⟨rfl, rfl⟩
    constructor
    · show (determineTrustLevel (0 : ℝ) 0).1 = _
      simp [determineTrustLevel]
    · show (determineTrustLevel (0 : ℝ) 0).2 = _
      simp [determineTrustLevel]
  · intro hne
    have htot : s + o ≠ 0 := by
      intro h0
      exact hne ⟨le_antisymm (by linarith) hs, le_antisymm (by linarith) ho⟩
    refine ⟨?_, ?_, ?_, ?_⟩
    · show (determineTrustLevel s o).2 = _
      simp only [determineTrustLevel]
      rw [if_neg htot]
      split_ifs <;> rfl
    · intro h90
      show (determineTrustLevel s o).1 = _
      simp only [determineTrustLevel]
      rw [if_neg htot, if_pos h90]
    · intro h70 h90
      show (determineTrustLevel s o).1 = _
      simp only [determineTrustLevel]
      rw [if_neg htot, if_neg (not_le.mpr h90), if_pos h70]
    · intro h70
      show (determineTrustLevel s o).1 = _
      simp only [determineTrustLevel]
      rw [if_neg htot, if_neg (by linarith), if_neg (not_le.mpr h70)]
  · rintro ps rfl hne
    show sideDistribution (some ps) fa = _
    simp only [sideDistribution]
    rw [if_pos (List.length_pos.mpr hne)]
  · rintro (rfl | rfl)
    · rfl
    · show sideDistribution (some []) fa = _
      simp [sideDistribution]
  · rintro ps rfl hne
    show sideDistribution (some ps) aa = _
    simp only [sideDistribution]
    rw [if_pos (List.length_pos.mpr hne)]
  · rintro (rfl | rfl)
    · rfl
    · show sideDistribution (some []) aa = _
      simp [sideDistribution]
  · exact (getWorseDistribution_spec _ _).1
  · exact fun h => (getWorseDistribution_spec _ _).2.1 h

/-- Witness for C2 at support 10, oppose 0, a singleton FOR position list. -/
theorem analyzeTrustDistribution_spec_witness :
    ¬ ((10 : ℝ) = 0 ∧ (0 : ℝ) = 0) ∧
    ((10 : ℝ) = 0 ∧ (0 : ℝ) = 0 →
      (analyzeTrustDistribution 10 0 (some [{ shares := 4 }]) none none none).trustLevel
        = .noStakes ∧
      (analyzeTrustDistribution 10 0 (some [{ shares := 4 }]) none none none).trustRatio
        = 50) :=
  ⟨by norm_num,
    (analyzeTrustDistribution_spec 10 0 (by norm_num) (by norm_num)
      (some [{ shares := 4 }]) none none none).1⟩

/-- For counts of at least 6 the top-1 estimate is the capped power-law
branch. -/
theorem estimatedTop1PercentOf_ge_six (n : ℕ) (h : 6 ≤ n) :
    estimatedTop1PercentOf n = max 20 (100 / (n : ℝ) ^ (0.7 : ℝ)) := by
  unfold estimatedTop1PercentOf
  rw [if_neg (by omega), if_neg (by omega), if_neg (by omega)]

/-- One step of the top-1 estimate curve is weakly decreasing. -/
theorem estimatedTop1PercentOf_succ_le (n : ℕ) (h1 : 1 ≤ n) :
    estimatedTop1PercentOf (n + 1) ≤ estimatedTop1PercentOf n := by
  by_cases h6 : 6 ≤ n
  · rw [estimatedTop1PercentOf_ge_six n h6, estimatedTop1PercentOf_ge_six (n + 1) (by omega)]
    apply max_le_max (le_refl 20)
    apply div_le_div_of_nonneg_left (by norm_num)
    · exact Real.rpow_pos_of_pos (by exact_mod_cast (by omega : 0 < n)) _
    · apply Real.rpow_le_rpow (Nat.cast_nonneg n) (by exact_mod_cast Nat.le_succ n)
      norm_num
  · have h5 : n ≤ 5 := by omega
    interval_cases n
    · norm_num [estimatedTop1PercentOf]
    · have h3 : (10 : ℝ) / 7 ≤ Real.sqrt 3 := by
        rw [show (10 : ℝ) / 7 = Real.sqrt ((10 / 7) ^ 2) from
          (Real.sqrt_sq (by norm_num)).symm]
        apply Real.sqrt_le_sqrt
        norm_num
      have : (100 : ℝ) / Real.sqrt 3 ≤ 100 / (10 / 7) :=
        div_le_div_of_nonneg_left (by norm_num) (by norm_num) h3
      norm_num [estimatedTop1PercentOf]
      linarith
    · have h34 : Real.sqrt 3 ≤ Real.sqrt 4 := Real.sqrt_le_sqrt (by norm_num)
      have h3pos : (0 : ℝ) < Real.sqrt 3 := Real.sqrt_pos.mpr (by norm_num)
      have := div_le_div_of_nonneg_left (by norm_num : (0 : ℝ) ≤ 100) h3pos h34
      norm_num [estimatedTop1PercentOf]
      linarith
    · have h45 : Real.sqrt 4 ≤ Real.sqrt 5 := Real.sqrt_le_sqrt (by norm_num)
      have h4pos : (0 : ℝ) < Real.sqrt 4 := Real.sqrt_pos.mpr (by norm_num)
      have := div_le_div_of_nonneg_left (by norm_num : (0 : ℝ) ≤ 100) h4pos h45
      norm_num [estimatedTop1PercentOf]
      linarith
    · have h5pos : (0 : ℝ) < Real.sqrt 5 := Real.sqrt_pos.mpr (by norm_num)
      have hsqrt5_le : Real.sqrt 5 ≤ 5 := by
        have h := Real.sqrt_le_sqrt (by norm_num : (5 : ℝ) ≤ 25)
        rwa [show (25 : ℝ) = 5 ^ 2 by norm_num, Real.sqrt_sq (by norm_num)] at h
      have h20 : (20 : ℝ) ≤ 100 / Real.sqrt 5 := by
        have := div_le_div_of_nonneg_left (by norm_num : (0 : ℝ) ≤ 100) h5pos hsqrt5_le
        linarith [this]
      have hs5 : Real.sqrt 5 ≤ (6 : ℝ) ^ (0.7 : ℝ) := by
        rw [Real.sqrt_eq_rpow]
        calc (5 : ℝ) ^ ((1 : ℝ) / 2)
            ≤ (5 : ℝ) ^ (0.7 : ℝ) :=
              Real.rpow_le_rpow_of_exponent_le (by norm_num) (by norm_num)
          _ ≤ (6 : ℝ) ^ (0.7 : ℝ) :=
              Real.rpow_le_rpow (by norm_num) (by norm_num) (by norm_num)
      have hmax2 : (100 : ℝ) / (6 : ℝ) ^ (0.7 : ℝ) ≤ 100 / Real.sqrt 5 :=
        div_le_div_of_nonneg_left (by norm_num) h5pos hs5
      have hgoal := max_le h20 hmax2
      norm_num [estimatedTop1PercentOf] at hgoal ⊢
      exact hgoal

/-- The top-1 estimate curve is weakly decreasing on counts of at least 1. -/
theorem estimatedTop1PercentOf_antitone {m n : ℕ} (hm : 1 ≤ m) (hmn : m ≤ n) :
    estimatedTop1PercentOf n ≤ estimatedTop1PercentOf m := by
  induction n, hmn using Nat.le_induction with
  | base => exact le_refl _
  | succ n hn ih =>
      exact le_trans (estimatedTop1PercentOf_succ_le n (le_trans hm hn)) ih

/-- C7 counterexample: an aggregate with count 3 but zero total shares takes
the empty-analysis path, not the estimation path, so its gini is 0 instead
of the claimed bucket value 0.6 and its stakerCount is 0 instead of 3. -/
theorem estimateFromAggregate_counterexample :
    estimateDistributionFromAggregate
      (some { count := 3, sum := some ⟨0⟩, avg := some ⟨0⟩ }) =
      analyzeShareDistribution [] ∧
    (estimateDistributionFromAggregate
      (some { count := 3, sum := some ⟨0⟩, avg := some ⟨0⟩ })).stakerCount = 0 ∧
    (estimateDistributionFromAggregate
      (some { count := 3, sum := some ⟨0⟩, avg := some ⟨0⟩ })).gini = 0 ∧
    estimatedGiniOf 3 = 0.6 ∧ (0 : ℝ) ≠ 0.6 := by
  have hempty : estimateDistributionFromAggregate
      (some { count := 3, sum := some ⟨0⟩, avg := some ⟨0⟩ }) =
      analyzeShareDistribution [] := by
    simp only [estimateDistributionFromAggregate]
    rw [if_neg (by norm_num), if_pos (Or.inr (by rfl))]
  refine ⟨hempty, by rw [hempty]; rfl, by rw [hempty]; rfl, ?_, by norm_num⟩
  norm_num [estimatedGiniOf]

/-- C7 (amended): `estimateDistributionFromAggregate` returns the empty
analysis when the aggregate is absent, its count is 0, or its total shares
(`sum?.shares || 0`) is 0; otherwise it estimates top-1 concentration by
the fixed weakly-decreasing curve (1 → 100, 2 → 70, 3..5 → 100/√count,
above 5 → max(20, 100/count^0.7)), estimates gini by the count buckets
(1 → 0, 2 → 0.5, 3..5 → 0.6, 6..10 → 0.5, above 10 → 0.4), and derives the
status by feeding both estimates through `determineStatus` with the count
as staker count. -/
theorem estimateDistributionFromAggregate_spec :
    (estimateDistributionFromAggregate none = analyzeShareDistribution []) ∧
    (∀ a : PositionAggregate ℝ, a.count = 0 ∨ aggTotalShares a = 0 →
      estimateDistributionFromAggregate (some a) = analyzeShareDistribution []) ∧
    (∀ a : PositionAggregate ℝ, a.count ≠ 0 → aggTotalShares a ≠ 0 →
      (estimateDistributionFromAggregate (some a)).top1Percent =
        estimatedTop1PercentOf a.count ∧
      (estimateDistributionFromAggregate (some a)).gini = estimatedGiniOf a.count ∧
      (estimateDistributionFromAggregate (some a)).stakerCount = a.count ∧
      (estimateDistributionFromAggregate (some a)).status =
        determineStatus (estimatedGiniOf a.count) (estimatedTop1PercentOf a.count)
          a.count) ∧
    estimatedTop1PercentOf 1 = 100 ∧
    estimatedTop1PercentOf 2 = 70 ∧
    (∀ n, 3 ≤ n → n ≤ 5 → estimatedTop1PercentOf n = 100 / Real.sqrt n) ∧
    (∀ n, 5 < n → estimatedTop1PercentOf n = max 20 (100 / (n : ℝ) ^ (0.7 : ℝ))) ∧
    estimatedGiniOf 1 = 0 ∧
    estimatedGiniOf 2 = 0.5 ∧
    (∀ n, 3 ≤ n → n ≤ 5 → estimatedGiniOf n = 0.6) ∧
    (∀ n, 6 ≤ n → n ≤ 10 → estimatedGiniOf n = 0.5) ∧
    (∀ n, 10 < n → estimatedGiniOf n = 0.4) ∧
    (∀ m n : ℕ, 1 ≤ m → m ≤ n →
      estimatedTop1PercentOf n ≤ estimatedTop1PercentOf m) := by
  refine ⟨rfl, ?_, ?_, rfl, rfl, ?_, ?_, rfl, rfl, ?_, ?_, ?_,
    fun m n hm hmn => estimatedTop1PercentOf_antitone hm hmn⟩
  · intro a h
    simp only [estimateDistributionFromAggregate]
    by_cases hc : a.count = 0
    · rw [if_pos hc]
    · rw [if_neg hc, if_pos (Or.inr (h.resolve_left hc))]
  · intro a hc ht
    simp only [estimateDistributionFromAggregate]
    rw [if_neg hc, if_neg (not_or.mpr ⟨hc, ht⟩)]
    exact ⟨rfl, rfl, rfl, rfl⟩
  · intro n h3 h5
    unfold estimatedTop1PercentOf
    rw [if_neg (by omega), if_neg (by omega), if_pos h5]
  · intro n h5
    unfold estimatedTop1PercentOf
    rw [if_neg (by omega), if_neg (by omega), if_neg (by omega)]
  · intro n h3 h5
    unfold estimatedGiniOf
    rw [if_neg (by omega), if_neg (by omega), if_pos h5]
  · intro n h6 h10
    unfold estimatedGiniOf
    rw [if_neg (by omega), if_neg (by omega), if_neg (by omega), if_pos h10]
  · intro n h10
    unfold estimatedGiniOf
    rw [if_neg (by omega), if_neg (by omega), if_neg (by omega), if_neg (by omega)]

/-- Witness for C7 (amended): the curve value at 6 does not exceed the
curve value at 2. -/
theorem estimateDistributionFromAggregate_spec_witness :
    estimatedTop1PercentOf 6 ≤ estimatedTop1PercentOf 2 := by
  obtain ⟨-, -, -, -, -, -, -, -, -, -, -, -, hmono⟩ :=
    estimateDistributionFromAggregate_spec
  exact hmono 2 6 (by norm_num) (by norm_num)

/-- C10: a non-null aggregate with positive count but zero (or missing)
sum.shares yields the zeroed empty analysis, not an estimate with
stakerCount = count. -/
theorem estimateFromAggregate_zero_sum (a : PositionAggregate ℝ)
    (hc : a.count ≠ 0) (hz : aggTotalShares a = 0) :
    estimateDistributionFromAggregate (some a) = analyzeShareDistribution [] ∧
    (estimateDistributionFromAggregate (some a)).stakerCount = 0 ∧
    (estimateDistributionFromAggregate (some a)).stakerCount ≠ a.count ∧
    (estimateDistributionFromAggregate (some a)).status = .wellDistributed ∧
    (estimateDistributionFromAggregate (some a)).label = "No Stakes" ∧
    (∀ b : PositionAggregate ℝ, b.sum = none → aggTotalShares b = 0) := by
  have he : estimateDistributionFromAggregate (some a) = analyzeShareDistribution [] := by
    simp only [estimateDistributionFromAggregate]
    rw [if_neg hc, if_pos (Or.inr hz)]
  refine ⟨he, by rw [he]; rfl, ?_, by rw [he]; rfl, by rw [he]; rfl, ?_⟩
  · rw [he, show (analyzeShareDistribution ([] : List ℝ)).stakerCount = 0 from rfl]
    omega
  · intro b hb
    simp [aggTotalShares, hb]

/-- Witness for C10 at an aggregate with count 3 and zero sum. -/
theorem estimateFromAggregate_zero_sum_witness :
    (estimateDistributionFromAggregate
      (some { count := 3, sum := some ⟨0⟩, avg := none })).label = "No Stakes" :=
  (estimateFromAggregate_zero_sum { count := 3, sum := some ⟨0⟩, avg := none }
    (by norm_num) (by rfl)).2.2.2.2.1

/-- Mapping a field-preserving function relates a list to its image
entry by entry. -/
theorem forall2_map_self {R : TrustedContact → TrustedContact → Prop}
    (f : TrustedContact → TrustedContact) (hf : ∀ x, R x (f x)) :
    ∀ l : List TrustedContact, List.Forall₂ R l (l.map f) := by
  intro l
  induction l with
  | nil => exact List.Forall₂.nil
  | cons x xs ih => exact List.Forall₂.cons (hf x) ih

/-- Source `enrichContact` changes at most the label. -/
theorem enrichContact_preserves (labelMap : List (String × String))
    (c : TrustedContact) :
    c.accountId = (enrichContact labelMap c).accountId ∧
    c.shares = (enrichContact labelMap c).shares := by
  unfold enrichContact
  rcases hm : mapGet labelMap (lowerStr c.accountId) with _ | r <;>
    simp only [hm] <;> split_ifs <;> exact ⟨rfl, rfl⟩

/-- Source `formatContact` changes at most the label. -/
theorem formatContact_preserves (c : TrustedContact) :
    c.accountId = (formatContact c).accountId ∧
    c.shares = (formatContact c).shares :=
  ⟨rfl, rfl⟩

/-- C9: `enrichContactLabels` is total (the Data Provider failure branch
still returns a structurally valid result), and on every outcome the
returned FOR and AGAINST lists have the same length and order as the input
with every contact's accountId and shares unchanged — only the label may
be replaced. -/
theorem enrichContactLabels_spec (positions : TrustedCirclePositions)
    (queryOutcome : Except Unit (List AtomRec)) :
    List.Forall₂ (fun a b => a.accountId = b.accountId ∧ a.shares = b.shares)
      positions.forContacts
      (enrichContactLabels positions queryOutcome).forContacts ∧
    List.Forall₂ (fun a b => a.accountId = b.accountId ∧ a.shares = b.shares)
      positions.againstContacts
      (enrichContactLabels positions queryOutcome).againstContacts ∧
    (enrichContactLabels positions queryOutcome).forContacts.length =
      positions.forContacts.length ∧
    (enrichContactLabels positions queryOutcome).againstContacts.length =
      positions.againstContacts.length := by
  simp only [enrichContactLabels]
  split_ifs with h
  · exact ⟨List.forall₂_same.mpr (fun x _ => ⟨rfl, rfl⟩),
      List.forall₂_same.mpr (fun x _ => ⟨rfl, rfl⟩), rfl, rfl⟩
  · cases queryOutcome with
    | ok atoms =>
        exact ⟨forall2_map_self _ (enrichContact_preserves _) _,
          forall2_map_self _ (enrichContact_preserves _) _,
          List.length_map _ _, List.length_map _ _⟩
    | error e =>
        exact ⟨forall2_map_self _ formatContact_preserves _,
          forall2_map_self _ formatContact_preserves _,
          List.length_map _ _, List.length_map _ _⟩

/-- Witness for C9 on a singleton FOR list and a failed query. -/
theorem enrichContactLabels_spec_witness :
    (enrichContactLabels
      { forContacts := [{ accountId := "0xAB", label := "x", shares := some "5" }]
        againstContacts := [] } (Except.error ())).forContacts.length =
      ([{ accountId := "0xAB", label := "x", shares := some "5" }] :
        List TrustedContact).length :=
  (enrichContactLabels_spec
    { forContacts := [{ accountId := "0xAB", label := "x", shares := some "5" }]
      againstContacts := [] } (Except.error ())).2.2.1

/-- The JS `||` label chain realizes the cached-label → account-label →
truncated-address priority. -/
theorem firstTruthyLabel_priority (v1 v2 : Option String) (fb : String) :
    (∀ s, v1 = some s → s ≠ "" → firstTruthyLabel v1 v2 fb = s) ∧
    ((v1 = none ∨ v1 = some "") →
      (∀ s, v2 = some s → s ≠ "" → firstTruthyLabel v1 v2 fb = s) ∧
      ((v2 = none ∨ v2 = some "") → firstTruthyLabel v1 v2 fb = fb)) := by
  rcases v1 with _ | s1 <;> rcases v2 with _ | s2 <;>
    constructor <;> intros <;> simp_all [firstTruthyLabel] <;> split_ifs <;> simp_all

/-- Unpacking one retained contact of `getTrustedContactsWithPositions`:
it is trusted, is not the user, and carries the position's id, its shares
string and the priority-resolved label. -/
theorem contactFromPosition_spec {trustedCircle : List TrustedContact}
    {userAddress : Option String} {p : PositionWithAccount} {c : TrustedContact}
    (h : contactFromPosition trustedCircle (userAddress.map lowerStr) p = some c) :
    (∃ t ∈ trustedCircle, lowerStr t.accountId = lowerStr c.accountId) ∧
    (∀ u, userAddress = some u → lowerStr c.accountId ≠ lowerStr u) ∧
    p.account_id = c.accountId ∧
    c.shares = some (sharesOrZero p) ∧
    labelPriority trustedCircle p c.label := by
  unfold contactFromPosition at h
  by_cases h1 : some (lowerStr p.account_id) = userAddress.map lowerStr
  · rw [if_pos h1] at h
    cases h
  · rw [if_neg h1] at h
    by_cases h2 : lowerStr p.account_id ≠ "" ∧
        (circleIds trustedCircle).contains (lowerStr p.account_id)
    · rw [if_pos h2] at h
      have hc := Option.some.inj h
      subst hc
      have hid : lowerStr p.account_id ∈ circleIds trustedCircle := by
        simpa using h2.2
      obtain ⟨t, ht, htid⟩ := List.mem_map.mp hid
      refine ⟨⟨t, ht, htid⟩, ?_, rfl, rfl, ?_⟩
      · intro u hu hlow
        apply h1
        rw [hu]
        simpa using hlow
      · simp only [labelPriority]
        exact ⟨(firstTruthyLabel_priority _ _ _).1,
          (firstTruthyLabel_priority _ _ _).2⟩
    · rw [if_neg h2] at h
      cases h

/-- C6: every cross-referenced contact of either side matches a
trusted-circle member case-insensitively, is never the requesting user,
carries the label resolved by the cached-label → account-label →
truncated-address priority and the position's shares string, and each side
is sorted non-increasingly by the exact integer value of the decimal
shares strings. -/
theorem getTrustedContactsWithPositions_spec (trustedCircle : List TrustedContact)
    (forPositions againstPositions : List PositionWithAccount)
    (userAddress : Option String) :
    (∀ c ∈ (getTrustedContactsWithPositions trustedCircle forPositions
        againstPositions userAddress).forContacts,
      contactSideOk trustedCircle forPositions userAddress c) ∧
    (∀ c ∈ (getTrustedContactsWithPositions trustedCircle forPositions
        againstPositions userAddress).againstContacts,
      contactSideOk trustedCircle againstPositions userAddress c) ∧
    List.Sorted (fun a b => contactSharesNat b ≤ contactSharesNat a)
      (getTrustedContactsWithPositions trustedCircle forPositions
        againstPositions userAddress).forContacts ∧
    List.Sorted (fun a b => contactSharesNat b ≤ contactSharesNat a)
      (getTrustedContactsWithPositions trustedCircle forPositions
        againstPositions userAddress).againstContacts := by
  have hmem : ∀ (ps : List PositionWithAccount) (c : TrustedContact),
      c ∈ sortContactsDesc (ps.filterMap
        (contactFromPosition trustedCircle (userAddress.map lowerStr))) →
      contactSideOk trustedCircle ps userAddress c := by
    intro ps c hc
    have hc2 : c ∈ ps.filterMap
        (contactFromPosition trustedCircle (userAddress.map lowerStr)) :=
      (List.perm_insertionSort _ _).mem_iff.mp hc
    obtain ⟨p, hp, hpc⟩ := List.mem_filterMap.mp hc2
    obtain ⟨htr, huser, hid, hsh, hlp⟩ := contactFromPosition_spec hpc
    exact ⟨htr, huser, ⟨p, hp, hid, hsh, hlp⟩⟩
  have hsorted : ∀ l : List TrustedContact,
      List.Sorted (fun a b => contactSharesNat b ≤ contactSharesNat a)
        (sortContactsDesc l) := by
    intro l
    haveI : IsTotal TrustedContact
        (fun a b => contactSharesNat b ≤ contactSharesNat a) :=
      ⟨fun a b => le_total _ _⟩
    haveI : IsTrans TrustedContact
        (fun a b => contactSharesNat b ≤ contactSharesNat a) :=
      ⟨fun a b c hab hbc => le_trans hbc hab⟩
    exact List.sorted_insertionSort _ l
  exact ⟨fun c hc => hmem forPositions c hc, fun c hc => hmem againstPositions c hc,
    hsorted _, hsorted _⟩

/-- Witness for C6 on a one-member circle and a one-position FOR side. -/
theorem getTrustedContactsWithPositions_spec_witness :
    ∀ c ∈ (getTrustedContactsWithPositions
        [{ accountId := "0xA", label := "Alice" }]
        [{ account_id := "0xa", shares := some "5" }] [] none).forContacts,
      contactSideOk [{ accountId := "0xA", label := "Alice" }]
        [{ account_id := "0xa", shares := some "5" }] none c :=
  (getTrustedContactsWithPositions_spec
    [{ accountId := "0xA", label := "Alice" }]
    [{ account_id := "0xa", shares := some "5" }] [] none).1

/-- A fold preserves any invariant its step preserves. -/
theorem foldl_preserves {β γ : Type} {P : β → Prop} {f : β → γ → β}
    (hf : ∀ b x, P b → P (f b x)) :
    ∀ (l : List γ) (b : β), P b → P (l.foldl f b) := by
  intro l
  induction l with
  | nil => exact fun b hb => hb
  | cons x xs ih => exact fun b hb => ih (f b x) (hf b x hb)

/-- Source `pushClaimIfNew` keeps the contact id, keeps the claim pairs
de-duplicated and keeps the claims list non-empty. -/
theorem pushClaimIfNew_ok (fc : FamiliarContact) (cl : ClaimContext)
    (h : (fc.claims.map claimPair).Nodup) :
    (pushClaimIfNew fc cl).accountId = fc.accountId ∧
    ((pushClaimIfNew fc cl).claims.map claimPair).Nodup ∧
    (fc.claims ≠ [] → (pushClaimIfNew fc cl).claims ≠ []) := by
  unfold pushClaimIfNew
  split_ifs with hany
  · exact ⟨rfl, h, fun hne => hne⟩
  · refine ⟨rfl, ?_, fun _ => by simp⟩
    rw [List.map_append, List.nodup_append]
    refine ⟨h, by simp, ?_⟩
    intro x hx hx2
    simp only [List.map_cons, List.map_nil, List.mem_singleton] at hx2
    subst hx2
    obtain ⟨cc, hcc, hccx⟩ := List.mem_map.mp hx
    apply hany
    rw [List.any_eq_true]
    refine ⟨cc, hcc, ?_⟩
    have h1 : cc.predicateLabel = cl.predicateLabel := congrArg Prod.fst hccx
    have h2 : cc.objectLabel = cl.objectLabel := congrArg Prod.snd hccx
    simp [h1, h2]

/-- One familiarity step preserves the entry invariant. -/
theorem familiarityStep_preserves (trustedCircle : List TrustedContact)
    (displayed : List String) (nu : Option String) (cl : ClaimContext)
    (m : List (String × FamiliarContact)) (accountId : String)
    (hm : ∀ kv ∈ m, familiarEntryOk trustedCircle displayed nu kv) :
    ∀ kv ∈ familiarityStep trustedCircle displayed nu cl m accountId,
      familiarEntryOk trustedCircle displayed nu kv := by
  unfold familiarityStep
  dsimp only
  by_cases h1 : some (lowerStr accountId) = nu
  · rw [if_pos h1]
    exact hm
  rw [if_neg h1]
  by_cases h2 : displayed.contains (lowerStr accountId) = true
  · rw [if_pos h2]
    exact hm
  rw [if_neg h2]
  by_cases h3 : (circleIds trustedCircle).contains (lowerStr accountId) = true
  · rw [if_neg (not_not_intro h3)]
    rcases hg : mapGet m (lowerStr accountId) with _ | fc
    · simp only [hg]
      intro kv hkv
      rcases List.mem_append.mp hkv with hin | hnew
      · exact hm kv hin
      · have hkv2 : kv = (lowerStr accountId,
            { accountId := accountId
              label := firstTruthyLabel
                (mapGet (circleLabels trustedCircle) (lowerStr accountId)) none
                (formatAddress accountId)
              claims := [cl] }) := by simpa using hnew
        subst hkv2
        refine ⟨rfl, h3, h1, by simpa using h2, by simp, by simp⟩
    · simp only [hg]
      intro kv hkv
      obtain ⟨kv0, hkv0, hfkv⟩ := List.mem_map.mp hkv
      obtain ⟨hkey, htr, hu, hd, hnd, hne⟩ := hm kv0 hkv0
      by_cases heq : kv0.1 = lowerStr accountId
      · rw [if_pos heq] at hfkv
        subst hfkv
        obtain ⟨hacc, hnd2, hne2⟩ := pushClaimIfNew_ok kv0.2 cl hnd
        exact ⟨by rw [hacc]; exact hkey, htr, hu, hd, hnd2, hne2 hne⟩
      · rw [if_neg heq] at hfkv
        subst hfkv
        exact ⟨hkey, htr, hu, hd, hnd, hne⟩
  · rw [if_pos h3]
    exact hm

/-- The whole accumulated familiarity map satisfies the entry invariant. -/
theorem familiarityMap_ok (trustedCircle : List TrustedContact)
    (displayed : List String) (nu : Option String)
    (triples : List TripleClaim) :
    ∀ kv ∈ familiarityMap trustedCircle displayed nu triples,
      familiarEntryOk trustedCircle displayed nu kv := by
  unfold familiarityMap
  apply foldl_preserves
    (fun m t hmm =>
      foldl_preserves
        (fun b x hb => familiarityStep_preserves trustedCircle displayed nu
          (claimOfTriple t) b x hb)
        (allPositionAccounts t) m hmm)
  intro kv hkv
  cases hkv

/-- Source `pushClaimIfNew` never changes the contact's account id. -/
theorem pushClaimIfNew_accountId (fc : FamiliarContact) (cl : ClaimContext) :
    (pushClaimIfNew fc cl).accountId = fc.accountId := by
  unfold pushClaimIfNew
  split_ifs <;> rfl

/-- A familiarity step on an account that is the user, already displayed or
not trusted leaves the map unchanged. -/
theorem familiarityStep_skip (trustedCircle : List TrustedContact)
    (displayed : List String) (nu : Option String) (cl : ClaimContext)
    (m : List (String × FamiliarContact)) (accountId : String)
    (h : some (lowerStr accountId) = nu ∨
      displayed.contains (lowerStr accountId) = true ∨
      ¬ (circleIds trustedCircle).contains (lowerStr accountId) = true) :
    familiarityStep trustedCircle displayed nu cl m accountId = m := by
  unfold familiarityStep
  dsimp only
  by_cases h1 : some (lowerStr accountId) = nu
  · rw [if_pos h1]
  rw [if_neg h1]
  by_cases h2 : displayed.contains (lowerStr accountId) = true
  · rw [if_pos h2]
  rw [if_neg h2]
  have h3 : ¬ (circleIds trustedCircle).contains (lowerStr accountId) = true := by
    tauto
  rw [if_pos h3]

/-- A fold whose step fixes every state is the identity. -/
theorem foldl_fixed {β γ : Type} {f : β → γ → β} :
    ∀ l : List γ, (∀ x ∈ l, ∀ b, f b x = b) → ∀ b : β, l.foldl f b = b := by
  intro l
  induction l with
  | nil => exact fun _ _ => rfl
  | cons x xs ih =>
      intro h b
      rw [List.foldl_cons, h x (by simp) b]
      exact ih (fun y hy b2 => h y (by simp [hy]) b2) b

/-- When every position holder of every triple is the user, already
displayed or not trusted, the accumulated familiarity map is empty. -/
theorem familiarityMap_nil (trustedCircle : List TrustedContact)
    (displayed : List String) (nu : Option String)
    (triples : List TripleClaim)
    (h : ∀ t ∈ triples, ∀ a ∈ allPositionAccounts t,
      some (lowerStr a) = nu ∨
      displayed.contains (lowerStr a) = true ∨
      ¬ (circleIds trustedCircle).contains (lowerStr a) = true) :
    familiarityMap trustedCircle displayed nu triples = [] := by
  unfold familiarityMap
  apply foldl_fixed
  intro t ht m
  apply foldl_fixed
  intro a ha m2
  exact familiarityStep_skip trustedCircle displayed nu (claimOfTriple t) m2 a
    (h t ht a ha)

/-- Every entry a familiarity step leaves in the map keeps the account id of
an existing entry or carries the stepped account id. -/
theorem familiarityStep_accounts (trustedCircle : List TrustedContact)
    (displayed : List String) (nu : Option String) (cl : ClaimContext)
    (m : List (String × FamiliarContact)) (accountId : String) :
    ∀ kv ∈ familiarityStep trustedCircle displayed nu cl m accountId,
      (∃ kv0 ∈ m, kv.2.accountId = kv0.2.accountId) ∨
      kv.2.accountId = accountId := by
  unfold familiarityStep
  dsimp only
  by_cases h1 : some (lowerStr accountId) = nu
  · rw [if_pos h1]
    exact fun kv hkv => Or.inl ⟨kv, hkv, rfl⟩
  rw [if_neg h1]
  by_cases h2 : displayed.contains (lowerStr accountId) = true
  · rw [if_pos h2]
    exact fun kv hkv => Or.inl ⟨kv, hkv, rfl⟩
  rw [if_neg h2]
  by_cases h3 : (circleIds trustedCircle).contains (lowerStr accountId) = true
  · rw [if_neg (not_not_intro h3)]
    rcases hg : mapGet m (lowerStr accountId) with _ | fc
    · simp only [hg]
      intro kv hkv
      rcases List.mem_append.mp hkv with hin | hnew
      · exact Or.inl ⟨kv, hin, rfl⟩
      · right
        have hkv2 : kv = (lowerStr accountId,
            { accountId := accountId
              label := firstTruthyLabel
                (mapGet (circleLabels trustedCircle) (lowerStr accountId)) none
                (formatAddress accountId)
              claims := [cl] }) := by simpa using hnew
        subst hkv2
        rfl
    · simp only [hg]
      intro kv hkv
      obtain ⟨kv0, hkv0, hfkv⟩ := List.mem_map.mp hkv
      by_cases heq : kv0.1 = lowerStr accountId
      · rw [if_pos heq] at hfkv
        subst hfkv
        exact Or.inl ⟨kv0, hkv0, pushClaimIfNew_accountId kv0.2 cl⟩
      · rw [if_neg heq] at hfkv
        subst hfkv
        exact Or.inl ⟨kv0, hkv0, rfl⟩
  · rw [if_pos h3]
    exact fun kv hkv => Or.inl ⟨kv, hkv, rfl⟩

/-- Folding one triple's position-holder list only produces entries whose
account id existed before or occurs among those holders. -/
theorem familiarity_inner_accounts (trustedCircle : List TrustedContact)
    (displayed : List String) (nu : Option String) (cl : ClaimContext) :
    ∀ (accts : List String) (m : List (String × FamiliarContact)),
      ∀ kv ∈ accts.foldl (familiarityStep trustedCircle displayed nu cl) m,
        (∃ kv0 ∈ m, kv.2.accountId = kv0.2.accountId) ∨
        kv.2.accountId ∈ accts := by
  intro accts
  induction accts with
  | nil => exact fun m kv hkv => Or.inl ⟨kv, hkv, rfl⟩
  | cons a as ih =>
      intro m kv hkv
      rw [List.foldl_cons] at hkv
      rcases ih (familiarityStep trustedCircle displayed nu cl m a) kv hkv with
        ⟨kv0, hkv0, he⟩ | hacc
      · rcases familiarityStep_accounts trustedCircle displayed nu cl m a kv0 hkv0
          with ⟨kv1, hkv1, he1⟩ | ha
        · exact Or.inl ⟨kv1, hkv1, he.trans he1⟩
        · refine Or.inr ?_
          rw [he, ha]
          exact List.mem_cons_self a as
      · exact Or.inr (List.mem_cons_of_mem a hacc)

/-- Every entry of the accumulated familiarity map carries the account id of
a position holder of one of the processed triples. -/
theorem familiarityMap_accounts (trustedCircle : List TrustedContact)
    (displayed : List String) (nu : Option String) :
    ∀ (triples : List TripleClaim) (m : List (String × FamiliarContact)),
      ∀ kv ∈ triples.foldl
        (fun m t =>
          (allPositionAccounts t).foldl
            (familiarityStep trustedCircle displayed nu (claimOfTriple t)) m) m,
        (∃ kv0 ∈ m, kv.2.accountId = kv0.2.accountId) ∨
        ∃ t ∈ triples, kv.2.accountId ∈ allPositionAccounts t := by
  intro triples
  induction triples with
  | nil => exact fun m kv hkv => Or.inl ⟨kv, hkv, rfl⟩
  | cons t ts ih =>
      intro m kv hkv
      rw [List.foldl_cons] at hkv
      rcases ih _ kv hkv with ⟨kv0, hkv0, he⟩ | ⟨t2, ht2, hacc⟩
      · rcases familiarity_inner_accounts trustedCircle displayed nu
          (claimOfTriple t) (allPositionAccounts t) m kv0 hkv0 with
          ⟨kv1, hkv1, he1⟩ | hacc
        · exact Or.inl ⟨kv1, hkv1, he.trans he1⟩
        · refine Or.inr ⟨t, List.mem_cons_self t ts, ?_⟩
          rw [he]
          exact hacc
      · exact Or.inr ⟨t2, List.mem_cons_of_mem t ht2, hacc⟩

/-- C8: `getNetworkFamiliarity` never propagates a Data Provider error (it
returns none on the error outcome), returns none on an empty trusted
circle, an empty claim list, or when no position holder of any returned
triple survives the user / already-displayed / trusted-circle filters; and
every returned familiar contact is a trusted-circle member
(case-insensitively) that is neither the requesting user nor already
displayed, is a position holder of one of the triples, and has its claims
de-duplicated by (predicateLabel, objectLabel). -/
theorem getNetworkFamiliarity_spec (trustedCircle : List TrustedContact)
    (alreadyDisplayedIds : List String) (userAddress : Option String)
    (queryOutcome : Except Unit (List TripleClaim)) :
    (∀ e, queryOutcome = .error e →
      getNetworkFamiliarity trustedCircle alreadyDisplayedIds userAddress
        queryOutcome = none) ∧
    (trustedCircle = [] →
      getNetworkFamiliarity trustedCircle alreadyDisplayedIds userAddress
        queryOutcome = none) ∧
    (queryOutcome = .ok [] →
      getNetworkFamiliarity trustedCircle alreadyDisplayedIds userAddress
        queryOutcome = none) ∧
    (∀ triples, queryOutcome = .ok triples →
      (∀ t ∈ triples, ∀ a ∈ allPositionAccounts t,
        some (lowerStr a) = userAddress.map lowerStr ∨
        alreadyDisplayedIds.contains (lowerStr a) = true ∨
        ¬ (circleIds trustedCircle).contains (lowerStr a) = true) →
      getNetworkFamiliarity trustedCircle alreadyDisplayedIds userAddress
        queryOutcome = none) ∧
    (∀ nf, getNetworkFamiliarity trustedCircle alreadyDisplayedIds userAddress
        queryOutcome = some nf →
      nf.familiarContacts ≠ [] ∧
      ∀ c ∈ nf.familiarContacts,
        (∃ t ∈ trustedCircle, lowerStr t.accountId = lowerStr c.accountId) ∧
        (∀ u, userAddress = some u → lowerStr c.accountId ≠ lowerStr u) ∧
        alreadyDisplayedIds.contains (lowerStr c.accountId) = false ∧
        (c.claims.map claimPair).Nodup ∧
        (∀ triples, queryOutcome = .ok triples →
          ∃ t ∈ triples, c.accountId ∈ allPositionAccounts t)) := by
  refine ⟨?_, ?_, ?_, ?_, ?_⟩
  · rintro e rfl
    unfold getNetworkFamiliarity
    split_ifs <;> rfl
  · intro htc
    unfold getNetworkFamiliarity
    rw [if_pos htc]
  · rintro rfl
    unfold getNetworkFamiliarity
    split_ifs <;> rfl
  · rintro triples rfl h
    unfold getNetworkFamiliarity
    by_cases htc : trustedCircle = []
    · rw [if_pos htc]
    · rw [if_neg htc]
      dsimp only
      by_cases ht : triples = []
      · rw [if_pos ht]
      · rw [if_neg ht]
        rw [familiarityMap_nil trustedCircle alreadyDisplayedIds
          (userAddress.map lowerStr) triples h]
        simp
  · intro nf h
    unfold getNetworkFamiliarity at h
    by_cases htc : trustedCircle = []
    · rw [if_pos htc] at h
      cases h
    · rw [if_neg htc] at h
      cases queryOutcome with
      | error e => cases h
      | ok triples =>
        dsimp only at h
        by_cases ht : triples = []
        · rw [if_pos ht] at h
          cases h
        · rw [if_neg ht] at h
          by_cases hf : (familiarityMap trustedCircle alreadyDisplayedIds
              (userAddress.map lowerStr) triples).map
                (fun kv => kv.2) = []
          · rw [if_pos hf] at h
            cases h
          · rw [if_neg hf] at h
            have hnf := (Option.some.inj h).symm
            subst hnf
            refine ⟨hf, ?_⟩
            intro c hc
            obtain ⟨kv, hkv, hkvc⟩ := List.mem_map.mp hc
            obtain ⟨hkey, htr, hu, hd, hnd, -⟩ :=
              familiarityMap_ok trustedCircle alreadyDisplayedIds
                (userAddress.map lowerStr) triples kv hkv
            have hprov : ∃ t ∈ triples, kv.2.accountId ∈ allPositionAccounts t := by
              have hkv2 := hkv
              unfold familiarityMap at hkv2
              rcases familiarityMap_accounts trustedCircle alreadyDisplayedIds
                (userAddress.map lowerStr) triples [] kv hkv2 with
                ⟨kv0, hkv0, -⟩ | hp
              · cases hkv0
              · exact hp
            subst hkvc
            rw [hkey] at htr hu hd
            refine ⟨?_, ?_, by simpa using hd, hnd, ?_⟩
            · have : lowerStr kv.2.accountId ∈ circleIds trustedCircle := by
                simpa using htr
              obtain ⟨t, htmem, htid⟩ := List.mem_map.mp this
              exact ⟨t, htmem, htid⟩
            · intro u hu2 heq
              apply hu
              rw [hu2]
              simpa using heq
            · rintro triples2 htr2
              have : triples2 = triples := (Except.ok.inj htr2).symm
              subst this
              exact hprov

/-- Witness for C8: the error outcome yields none, and a triple whose only
position holder is not in the trusted circle also yields none. -/
theorem getNetworkFamiliarity_spec_witness :
    getNetworkFamiliarity [{ accountId := "0xA", label := "Alice" }] [] none
      (Except.error ()) = none ∧
    getNetworkFamiliarity [{ accountId := "0xA", label := "Alice" }] [] none
      (Except.ok [{ positions := [{ account_id := "0xB", shares := "1" }] }]) =
      none :=
  ⟨(getNetworkFamiliarity_spec [{ accountId := "0xA", label := "Alice" }] [] none
      (Except.error ())).1 () rfl,
    (getNetworkFamiliarity_spec [{ accountId := "0xA", label := "Alice" }] [] none
      (Except.ok [{ positions := [{ account_id := "0xB", shares := "1" }] }])).2.2.2.1
      [{ positions := [{ account_id := "0xB", shares := "1" }] }] rfl
      (by simp [allPositionAccounts, circleIds, lowerStr, String.map_eq])⟩
